import Mathlib

/-!
Verification of the galago ARM64 key-extraction emulator against its
natural-language specification.  The Go sources are shallowly embedded:
machine words are `Nat` with explicit reductions modulo `2 ^ 64` where the
Go code can overflow, guest memory is modelled either as an ordered list of
writes (for the fixed constructor-time memory image) or as a partial byte
function `Nat → Option Nat` (for arbitrary guest memory read by hooks), and
fallible operations return `Option`.
-/

set_option maxRecDepth 100000

namespace Galago

/-! ## Fixed memory layout constants (internal/emulator, memory layout block) -/

def CodeBase : Nat := 0x00010000
def CodeSize : Nat := 0x01000000
def StackBase : Nat := 0x80000000
def StackSize : Nat := 0x00100000
def HeapBase : Nat := 0x90000000
def HeapSize : Nat := 0x10000000
def MockObjBase : Nat := 0xDEAB0000
def MockObjSize : Nat := 0x00010000
def TLSBase : Nat := 0xDEAC0000
def TLSSize : Nat := 0x00010000
def LibcBase : Nat := 0xDEAD0000
def LibcSize : Nat := 0x00010000
def StubBase : Nat := 0xF0000000
def StubSize : Nat := 0x00100000

def CtypeTableOffset : Nat := 0x0000
def CtypePtrOffset : Nat := 0x0200
def EmptyStringRepOff : Nat := 0x0300
def EmptyStringDataOff : Nat := 0x0318

/-- Modulus of the 64-bit machine words used throughout the Go code. -/
def U64 : Nat := 18446744073709551616

/-- Little-endian byte `i` of a 64-bit value (binary.LittleEndian.PutUint64). -/
def le64 (v i : Nat) : Nat := v / 256 ^ i % 256

/-- The eight little-endian bytes of a 64-bit value. -/
def le64Bytes (v : Nat) : List Nat := (List.range 8).map (le64 v)

/-! ## Write-list memory model

The constructor `Emulator.mapMemory` performs a fixed sequence of memory
writes into freshly mapped, zero-initialized regions.  We model that memory
image as the ordered list of writes; a read consults the most recent write
covering the address and falls back to 0 (freshly mapped memory is zeroed).
-/

/-- One memory write: a base address, a byte count, and the byte contents
given by offset from the base. -/
structure MWrite where
  base : Nat
  size : Nat
  data : Nat → Nat

/-- A memory image: the list of performed writes, most recent first. -/
abbrev MemImg := List MWrite

/-- Read one byte: the most recent covering write wins; unmapped-region
bytes read as 0 (all regions are zero-initialized when mapped). -/
def readByte : MemImg → Nat → Nat
  | [], _ => 0
  | w :: ws, a => if w.base ≤ a ∧ a < w.base + w.size then w.data (a - w.base) else readByte ws a

/-- Read a little-endian 64-bit value (Emulator.MemReadU64). -/
def readU64 (m : MemImg) (a : Nat) : Nat :=
  (List.range 8).foldr (fun i acc => acc * 256 + readByte m (a + i)) 0

/-- A write of an explicit byte list. -/
def bytesW (base : Nat) (bs : List Nat) : MWrite :=
  ⟨base, bs.length, fun i => bs.getD i 0⟩

/-- A write of one little-endian 64-bit quantity (MemWrite of PutUint64 bytes). -/
def qwordW (base v : Nat) : MWrite := ⟨base, 8, le64 v⟩

/-! ## The `_ctype_` table (Emulator.mapMemory) -/

/-- Character-class flags for byte value `c`, translated from the switch in
`Emulator.mapMemory` that fills the `_ctype_` table.  Flag bits:
_U=0x01 _L=0x02 _N=0x04 _S=0x08 _P=0x10 _C=0x20 _B=0x40 _X=0x80. -/
def ctypeFlags (c : Nat) : Nat :=
  if 0x41 ≤ c ∧ c ≤ 0x5A then       -- c >= 'A' && c <= 'Z'
    if c > 0x46 then 0x01 else 0x01 ||| 0x80
  else if 0x61 ≤ c ∧ c ≤ 0x7A then  -- c >= 'a' && c <= 'z'
    if c > 0x66 then 0x02 else 0x02 ||| 0x80
  else if 0x30 ≤ c ∧ c ≤ 0x39 then  -- digits
    0x04 ||| 0x80
  else if c = 0x20 then             -- space
    0x08 ||| 0x40
  else if c = 0x09 then             -- tab
    0x08 ||| 0x40
  else if c = 0x0A ∨ c = 0x0D ∨ c = 0x0C ∨ c = 0x0B then
    0x08
  else if c < 0x20 ∨ c = 0x7F then  -- remaining controls
    0x20
  else if 0x21 ≤ c ∧ c ≤ 0x2F then
    0x10
  else if 0x3A ≤ c ∧ c ≤ 0x40 then
    0x10
  else if 0x5B ≤ c ∧ c ≤ 0x60 then
    0x10
  else if 0x7B ≤ c ∧ c ≤ 0x7E then
    0x10
  else 0

/-- Byte `i` of the 257-byte `_ctype_` table: byte 0 is the EOF marker 0,
byte `c+1` holds the flags of character value `c`. -/
def ctypeTableByte (i : Nat) : Nat := if i = 0 then 0 else ctypeFlags (i - 1)

/-- Reference `_ctype_` byte for character value `c`, written from the words
of the specification (section 3.2): each class bit is set exactly on its
stated range, and no other bit is set. -/
def ctypeSpecByte (c : Nat) : Nat :=
  (if 0x41 ≤ c ∧ c ≤ 0x5A then 0x01 else 0) |||
  (if 0x61 ≤ c ∧ c ≤ 0x7A then 0x02 else 0) |||
  (if 0x30 ≤ c ∧ c ≤ 0x39 then 0x04 else 0) |||
  (if c = 0x20 ∨ c = 0x09 ∨ c = 0x0A ∨ c = 0x0D ∨ c = 0x0C ∨ c = 0x0B then 0x08 else 0) |||
  (if (0x21 ≤ c ∧ c ≤ 0x2F) ∨ (0x3A ≤ c ∧ c ≤ 0x40) ∨
      (0x5B ≤ c ∧ c ≤ 0x60) ∨ (0x7B ≤ c ∧ c ≤ 0x7E) then 0x10 else 0) |||
  (if (c < 0x20 ∨ c = 0x7F) ∧ ¬(c = 0x09 ∨ c = 0x0A ∨ c = 0x0D ∨ c = 0x0C ∨ c = 0x0B)
      then 0x20 else 0) |||
  (if c = 0x20 ∨ c = 0x09 then 0x40 else 0) |||
  (if (0x41 ≤ c ∧ c ≤ 0x46) ∨ (0x61 ≤ c ∧ c ≤ 0x66) ∨ (0x30 ≤ c ∧ c ≤ 0x39) then 0x80 else 0)

/-! ## The constructor-time memory image (Emulator.mapMemory) -/

def mockTypeInfo : Nat := MockObjBase + 0x0800
def mockVtablePrefix : Nat := MockObjBase + 0x1000
def mockVtable : Nat := MockObjBase + 0x1010
def mockObj : Nat := MockObjBase + 0x2000
def mockObj2 : Nat := MockObjBase + 0x3000
def vtableStubs : Nat := MockObjBase + 0x4000
def callbackStubs : Nat := MockObjBase + 0x5000

/-- The AArch64 RET instruction bytes 0xd65f03c0, little endian. -/
def retInsn : List Nat := [0xc0, 0x03, 0x5f, 0xd6]

/-- Bytes of the type_info name string "12_MockObject" with NUL terminator. -/
def typeInfoNameBytes : List Nat :=
  [0x31, 0x32, 0x5F, 0x4D, 0x6F, 0x63, 0x6B, 0x4F, 0x62, 0x6A, 0x65, 0x63, 0x74, 0]

/-- The contents of the 32-byte empty libstdc++ COW string _Rep buffer:
length 0, capacity 0, refcount -1 (bytes 16..19 are 0xFF), then NUL data. -/
def emptyRepByte (i : Nat) : Nat := if 16 ≤ i ∧ i ≤ 19 then 0xFF else 0

/-- The sequence of memory writes performed by `Emulator.mapMemory`, in
execution order.  Loops whose iterations write pairwise-disjoint addresses
are coalesced into region writes whose content function reproduces the loop
body at each offset:
* the stack pre-fill repeats the mock-vtable pointer at 8-byte stride;
* loop 1 writes 256 RET stubs at `vtableStubs + i*4` and the 256 vtable
  entries `mockVtable + i*8 = vtableStubs + i*4`;
* loop 2 writes 256 RET stubs at `callbackStubs + i*4`;
* loop 3 writes 256 RET stubs at `mockObj2 + i*4`;
* loop 5 writes, for `i` in [1,256), `mockObj + i*8 = mockObj2` and
  `mockObj2 + i*8 = callbackStubs + (i % 256)*4` (the two destination
  ranges are disjoint, so the interleaving does not matter);
* the final write restores `mockObj2[0] = mockVtable`, which loop 3 had
  overwritten with RET bytes. -/
def mapMemoryWrites : List MWrite :=
  [ -- stack pre-fill with repeated mock-vtable pointers (64 KiB, 8-byte stride)
    ⟨StackBase + StackSize - 0x10000, 0x10000, fun off => le64 mockVtable (off % 8)⟩,
    -- zero the first 256 bytes of TLS
    ⟨TLSBase, 256, fun _ => 0⟩,
    -- stack canary at TLS+0x28
    qwordW (TLSBase + 0x28) 0xDEADBEEFDEADBEEF,
    -- the 257-byte _ctype_ table
    ⟨LibcBase + CtypeTableOffset, 257, ctypeTableByte⟩,
    -- the _ctype_ pointer, pointing at table+1
    qwordW (LibcBase + CtypePtrOffset) (LibcBase + CtypeTableOffset + 1),
    -- the empty COW string _Rep (32 bytes)
    ⟨LibcBase + EmptyStringRepOff, 32, emptyRepByte⟩,
    -- type_info name string
    bytesW (mockTypeInfo + 0x100) typeInfoNameBytes,
    -- type_info structure: fake vtable pointer then name pointer
    ⟨mockTypeInfo, 16, fun i => if i < 8 then le64 mockVtable i
                                else le64 (mockTypeInfo + 0x100) (i - 8)⟩,
    -- RTTI prefix: offset_to_top = 0 then type_info pointer
    ⟨mockVtablePrefix, 16, fun i => if i < 8 then 0 else le64 mockTypeInfo (i - 8)⟩,
    -- loop 1: 256 RET vtable stubs and the 256 mock-vtable entries
    ⟨vtableStubs, 1024, fun off => retInsn.getD (off % 4) 0⟩,
    ⟨mockVtable, 2048, fun off => le64 (vtableStubs + off / 8 * 4) (off % 8)⟩,
    -- loop 2: 256 RET callback stubs
    ⟨callbackStubs, 1024, fun off => retInsn.getD (off % 4) 0⟩,
    -- loop 3: RET stubs across mock_obj2 at 4-byte stride
    ⟨mockObj2, 1024, fun off => retInsn.getD (off % 4) 0⟩,
    -- step 4: vtable pointer at offset 0 of mock_obj
    qwordW mockObj mockVtable,
    -- loop 5: member pointers of mock_obj and mock_obj2 (i in [1,256))
    ⟨mockObj + 8, 2040, fun off => le64 mockObj2 (off % 8)⟩,
    ⟨mockObj2 + 8, 2040, fun off => le64 (callbackStubs + (off + 8) / 8 % 256 * 4) (off % 8)⟩,
    -- step 6: restore vtable pointer at offset 0 of mock_obj2
    qwordW mockObj2 mockVtable ]

/-- The memory image after `mapMemory`, most recent write first. -/
def ctorMem : MemImg := mapMemoryWrites.reverse

/-- Claim C6: after the address-space manager constructor succeeds, the
canary qword at TLS+0x28 is 0xDEADBEEFDEADBEEF, the `_ctype_` pointer at
Libc+CtypePtrOffset holds Libc+CtypeTableOffset+1, the first qword of
mock_obj and of mock_obj2 both hold mock_vtable, and for every i in
[1,256) the qword at mock_obj + i*8 holds mock_obj2. -/
theorem claim_C6 :
    readU64 ctorMem (TLSBase + 0x28) = 0xDEADBEEFDEADBEEF ∧
    readU64 ctorMem (LibcBase + CtypePtrOffset) = LibcBase + CtypeTableOffset + 1 ∧
    readU64 ctorMem mockObj = mockVtable ∧
    readU64 ctorMem mockObj2 = mockVtable ∧
    ∀ i : Fin 255, readU64 ctorMem (mockObj + (i.val + 1) * 8) = mockObj2 := by
  refine ⟨by decide, by decide, by decide, by decide, by decide⟩

/-- Claim C7: the 257-byte `_ctype_` table computed at construction equals
the reference definition written from the specification: byte 0 (EOF) is 0
and byte c+1 carries exactly the class bits the specification assigns to
character value c. -/
theorem claim_C7 :
    readByte ctorMem (LibcBase + CtypeTableOffset) = 0 ∧
    ∀ c : Fin 256,
      readByte ctorMem (LibcBase + CtypeTableOffset + (c.val + 1)) = ctypeSpecByte c.val := by
  refine ⟨by decide, by decide⟩

/-! ## String helpers (Go strings package restricted to ASCII)

Symbol names handled by the tool are ASCII; Go's strings.ToLower and
strings.EqualFold agree with the ASCII maps below on such names.
-/

/-- ASCII lower-casing of one character. -/
def lowerChar (c : Char) : Char :=
  if 'A' ≤ c ∧ c ≤ 'Z' then Char.ofNat (c.toNat + 32) else c

/-- strings.ToLower (ASCII). -/
def strLower (s : String) : String := String.mk (s.data.map lowerChar)

/-- strings.Contains. -/
def strContains (hay pat : String) : Bool := decide (pat.data <:+: hay.data)

/-- strings.HasPrefix. -/
def strStarts (hay pat : String) : Bool := decide (pat.data <+: hay.data)

/-- strings.EqualFold (ASCII). -/
def eqFold (a b : String) : Bool := strLower a = strLower b

/-- Index of the first occurrence of `pat` in a character list
(strings.Index), or none. -/
def idxOfSub (pat : List Char) : List Char → Option Nat
  | [] => if pat = [] then some 0 else none
  | c :: rest =>
    if pat <+: (c :: rest) then some 0 else (idxOfSub pat rest).map (· + 1)

/-- Strip an ELF version suffix: the prefix before the first "@@", else the
prefix before the first "@", else the name unchanged. -/
def stripVersion (s : String) : String :=
  match idxOfSub ['@', '@'] s.data with
  | some i => String.mk (s.data.take i)
  | none =>
    match idxOfSub ['@'] s.data with
    | some i => String.mk (s.data.take i)
    | none => s

/-! ## Relocation engine, R_AARCH64_ABS64 case (Emulator.applyRelocations) -/

/-- A dynamic-symbol-table entry as the relocation engine consumes it. -/
structure ElfSym where
  value : Nat
  name : String
deriving DecidableEq

/-- Association-list lookup mirroring a Go map read. -/
def lookupAddr : List (String × Nat) → String → Option Nat
  | [], _ => none
  | (k, v) :: rest, n => if k = n then some v else lookupAddr rest n

/-- Truncated-to-uint64 view of a Go int64 addend. -/
def addendU (a : Int) : Nat := (a % (U64 : Int)).toNat

/-- The R_AARCH64_ABS64 case of `Emulator.applyRelocations`, per RELA
entry.  `symLookup` is the result of the `symByIndex[symIdx]` map read and
`imports` holds the PLT-stub addresses.  The result is the
(target address, value) pair written through an 8-byte little-endian
store, or none when the entry writes nothing. -/
def applyRelocationABS64 (rOffset relocOffset : Nat) (symLookup : Option ElfSym)
    (imports : List (String × Nat)) (rAddend : Int) : Option (Nat × Nat) :=
  let targetAddr := (rOffset + relocOffset) % U64
  match symLookup with
  | some sym =>
    if sym.value ≠ 0 then
      some (targetAddr, (sym.value + relocOffset + addendU rAddend) % U64)
    else if sym.name ≠ "" then
      match lookupAddr imports (stripVersion sym.name) with
      | some stubAddr => some (targetAddr, (stubAddr + addendU rAddend) % U64)
      | none => none
    else none
  | none =>
    if 0 < rAddend then some (targetAddr, (relocOffset + addendU rAddend) % U64)
    else none

/-- The ABS64 relocation rule exactly as the claim states it: a guard chain
in which the `addend > 0` fallback fires whenever neither of the first two
guards does — in particular for a named external symbol with no PLT-stub
address. -/
def specABS64 (rOffset relocOffset : Nat) (symLookup : Option ElfSym)
    (imports : List (String × Nat)) (rAddend : Int) : Option (Nat × Nat) :=
  let targetAddr := (rOffset + relocOffset) % U64
  let stValue := (symLookup.map ElfSym.value).getD 0
  let symName := (symLookup.map ElfSym.name).getD ""
  if stValue ≠ 0 then
    some (targetAddr, (stValue + relocOffset + addendU rAddend) % U64)
  else if symName ≠ "" ∧ (lookupAddr imports (stripVersion symName)).isSome then
    some (targetAddr, ((lookupAddr imports (stripVersion symName)).getD 0 + addendU rAddend) % U64)
  else if 0 < rAddend then
    some (targetAddr, (relocOffset + addendU rAddend) % U64)
  else none

/-- The ABS64 relocation rule as amended: the `addend > 0` fallback applies
only when the relocation's symbol index has no symbol-table entry at all; a
present external symbol whose name has no PLT-stub address (or whose name
is empty) gets no write. -/
def specABS64Amended (rOffset relocOffset : Nat) (symLookup : Option ElfSym)
    (imports : List (String × Nat)) (rAddend : Int) : Option (Nat × Nat) :=
  let targetAddr := (rOffset + relocOffset) % U64
  match symLookup with
  | some sym =>
    if sym.value ≠ 0 then
      some (targetAddr, (sym.value + relocOffset + addendU rAddend) % U64)
    else if sym.name ≠ "" ∧ (lookupAddr imports (stripVersion sym.name)).isSome then
      some (targetAddr,
        ((lookupAddr imports (stripVersion sym.name)).getD 0 + addendU rAddend) % U64)
    else none
  | none =>
    if 0 < rAddend then some (targetAddr, (relocOffset + addendU rAddend) % U64)
    else none

/-- Counterexample to claim C3 as stated: a relocation whose symbol entry
is present with st_value = 0 and name "foo", with no PLT-stub address for
"foo" and addend 5.  The claim's rule writes base + addend at the target;
the code writes nothing. -/
theorem claim_C3_counterexample :
    applyRelocationABS64 0x1000 0x40000000 (some ⟨0, "foo"⟩) [] 5 = none ∧
    specABS64 0x1000 0x40000000 (some ⟨0, "foo"⟩) [] 5
      = some (0x40001000, 0x40000005) := by
  constructor
  · rfl
  · rfl

/-- Claim C3, amended: for every ABS64 relocation entry the engine writes
per the claim's first two branches, but the `addend > 0` fallback applies
only when the symbol index resolves to no symbol entry (not when a named
external symbol merely lacks a PLT-stub address). -/
theorem claim_C3 (rOffset relocOffset : Nat) (symLookup : Option ElfSym)
    (imports : List (String × Nat)) (rAddend : Int) :
    applyRelocationABS64 rOffset relocOffset symLookup imports rAddend
      = specABS64Amended rOffset relocOffset symLookup imports rAddend := by
  cases symLookup with
  | none => rfl
  | some sym =>
    simp only [applyRelocationABS64, specABS64Amended]
    by_cases hv : sym.value ≠ 0
    · simp [hv]
    · by_cases hn : sym.name ≠ ""
      · cases hlk : lookupAddr imports (stripVersion sym.name) <;>
          simp [hv, hn, hlk]
      · simp [hv, hn]

/-! ## Static initialization guards (package cxxabi) -/

/-- A call of one of the two guard stubs, with its X0 argument. -/
inductive GuardEvent
  | acquire (g : Nat)
  | release (g : Nat)
deriving DecidableEq

/-- The process-wide guardState map: the set of guard addresses marked
true (a Go map from uint64 to bool, reading false by default). -/
abbrev GuardState := List Nat

/-- stubCxaGuardAcquire: returns (X0 result, new map).  It only reads the
map: 1 when the guard is not yet marked initialized, 0 when it is. -/
def stubCxaGuardAcquire (st : GuardState) (g : Nat) : Nat × GuardState :=
  if g ∈ st then (0, st) else (1, st)

/-- stubCxaGuardRelease: marks the guard address true in the map. -/
def stubCxaGuardRelease (st : GuardState) (g : Nat) : GuardState := g :: st

/-- Run a sequence of guard-stub calls from a given map state. -/
def runGuardEvents (st : GuardState) : List GuardEvent → GuardState
  | [] => st
  | .acquire g :: rest => runGuardEvents (stubCxaGuardAcquire st g).2 rest
  | .release g :: rest => runGuardEvents (stubCxaGuardRelease st g) rest

/-- Counterexample to claim C9 as stated: from the initial (empty) guard
map, a second __cxa_guard_acquire on the same guard address with no
intervening __cxa_guard_release still returns 1, not 0: acquiring alone
does not mark the guard initialized. -/
theorem claim_C9_counterexample :
    (stubCxaGuardAcquire
      (runGuardEvents [] [GuardEvent.acquire 0x40001000]) 0x40001000).1 = 1 := by
  decide

/-- Membership in the guard map after a run: exactly the released guards
are added; acquires never add. -/
theorem runGuardEvents_mem (events : List GuardEvent) (st : GuardState) (g : Nat) :
    g ∈ runGuardEvents st events
      ↔ g ∈ st ∨ events.any (fun e => e = GuardEvent.release g) := by
  induction events generalizing st with
  | nil => simp [runGuardEvents]
  | cons e rest ih =>
    cases e with
    | acquire h =>
      by_cases hg : h ∈ st <;>
        simp [runGuardEvents, stubCxaGuardAcquire, hg, ih]
    | release h =>
      simp only [runGuardEvents, stubCxaGuardRelease, ih, List.any_cons, List.mem_cons]
      constructor
      · rintro (⟨rfl | hst⟩ | hrest)
        · exact Or.inr (by simp)
        · exact Or.inl hst
        · exact Or.inr (by simp [hrest])
      · rintro (hst | hor)
        · exact Or.inl (Or.inr hst)
        · rcases Bool.or_eq_true_iff.mp hor with heq | hrest
          · refine Or.inl (Or.inl ?_)
            have : GuardEvent.release h = GuardEvent.release g := by
              simpa using of_decide_eq_true heq
            cases this
            rfl
          · exact Or.inr hrest

/-- Claim C9, amended: for every guard address g and every prior sequence
of guard-stub calls starting from the empty process-wide map,
__cxa_guard_acquire(g) returns 1 exactly when no __cxa_guard_release(g)
has happened earlier (regardless of prior acquires), returns 0 thereafter,
and never modifies the map itself. -/
theorem claim_C9 (pre : List GuardEvent) (g : Nat) :
    (stubCxaGuardAcquire (runGuardEvents [] pre) g).1
      = (if pre.any (fun e => e = GuardEvent.release g) then 0 else 1) ∧
    (stubCxaGuardAcquire (runGuardEvents [] pre) g).2 = runGuardEvents [] pre := by
  have hmem := runGuardEvents_mem pre [] g
  simp only [List.not_mem_nil, false_or] at hmem
  constructor
  · by_cases hg : g ∈ runGuardEvents [] pre
    · rw [stubCxaGuardAcquire, if_pos hg, if_pos (hmem.mp hg)]
    · rw [stubCxaGuardAcquire, if_neg hg, if_neg (fun h => hg (hmem.mpr h))]
  · by_cases hg : g ∈ runGuardEvents [] pre
    · rw [stubCxaGuardAcquire, if_pos hg]
    · rw [stubCxaGuardAcquire, if_neg hg]

/-! ## The bump allocator (Emulator.Malloc) -/

/-- Round a size up to 16 bytes: the uint64 computation (size+15) &^ 15. -/
def align16 (size : Nat) : Nat := (size + 15) % U64 / 16 * 16

/-- Emulator.Malloc as a step on the bump pointer.  Returns the allocated
address and the new bump pointer; none models the Go panic on heap
exhaustion (new pointer at or past HeapBase+HeapSize). -/
def Malloc (heapPtr size : Nat) : Option (Nat × Nat) :=
  let sz := align16 size
  let hp := (heapPtr + sz) % U64
  if HeapBase + HeapSize ≤ hp then none else some (heapPtr, hp)

/-- A sequence of Malloc calls from a bump pointer: the returned
(address, rounded size) blocks and the final pointer, or none as soon as a
call panics. -/
def mallocRun (heapPtr : Nat) : List Nat → Option (List (Nat × Nat) × Nat)
  | [] => some ([], heapPtr)
  | size :: rest =>
    match Malloc heapPtr size with
    | none => none
    | some (addr, hp) =>
      match mallocRun hp rest with
      | none => none
      | some (blocks, hpEnd) => some ((addr, align16 size) :: blocks, hpEnd)

/-- Counterexample to claim C10 as stated: a first allocation whose rounded
size wraps the 64-bit bump pointer (to 0) does not panic, and the next
allocation then returns address 0 — Malloc can return 0, and the returned
blocks are neither inside the heap region nor disjoint. -/
theorem claim_C10_counterexample :
    mallocRun HeapBase [0xFFFFFFFF70000000, 16]
      = some ([(HeapBase, 0xFFFFFFFF70000000), (0, 16)], 16) := by
  decide

/-- The bump-pointer invariant: 16-byte aligned, inside the heap region. -/
abbrev HeapWF (hp : Nat) : Prop := HeapBase ≤ hp ∧ hp % 16 = 0 ∧ hp < HeapBase + HeapSize

/-- A request size whose 16-byte rounding cannot wrap the 64-bit bump
pointer while it is inside the heap region.  This holds in particular for
the fixed 40-byte _Rep allocations the stub hooks perform. -/
abbrev NoWrap (size : Nat) : Prop := align16 size ≤ U64 - (HeapBase + HeapSize)

/-- The 16-byte rounding always yields a multiple of 16. -/
theorem align16_mod16 (size : Nat) : align16 size % 16 = 0 :=
  Nat.mul_mod_left _ 16

/-! ## Entry-point selector (ELFInfo.FindEntryPoint)

The Go code iterates `info.Symbols`, a Go map whose iteration order is
unspecified and randomized.  The map is therefore embedded as an
association list recording one iteration order; order-(in)dependence is
expressed by quantifying over permutations of that list.
-/

/-- The part of ELFInfo that entry-point selection consumes. -/
structure ELFInfo where
  symbols : List (String × Nat)
  entry : Nat

/-- ELFInfo.FindSymbol: Go map read, 0 when absent. -/
def FindSymbol (info : ELFInfo) (name : String) : Nat :=
  (lookupAddr info.symbols name).getD 0

/-- ELFInfo.FindJNIOnLoad: exact lookup, then the address of the first
case-insensitive match in iteration order, else 0. -/
def FindJNIOnLoad (info : ELFInfo) : Nat :=
  if FindSymbol info "JNI_OnLoad" ≠ 0 then FindSymbol info "JNI_OnLoad"
  else ((info.symbols.find? (fun p => eqFold p.1 "JNI_OnLoad")).map Prod.snd).getD 0

/-- The vtable/typeinfo/destroy exclusion test of FindEntryPoint, applied
to the lower-cased name. -/
def excludedEntrySym (lower : String) : Bool :=
  strContains lower "_ztv" || strContains lower "_zti" ||
  strContains lower "_zts" || strContains lower "__func" ||
  strContains lower "__clone" || strContains lower "__target" ||
  strContains lower "destroy" || strContains lower "deallocate"

/-- The priority ladder of FindEntryPoint: the priority a (non-excluded)
symbol name gets as an entry candidate, or none. -/
def entryPriority (name : String) : Option Nat :=
  let lower := strLower name
  if strContains lower "regist_lua" then some 0
  else if strContains lower "appdelegate" && strContains lower "didfinish" then some 1
  else if strContains lower "ccgamemain" && strContains lower "didfinish" then some 2
  else if strContains lower "didfinishlaunching" then some 3
  else if strContains lower "cocos_android_app_init" then some 4
  else if strContains lower "cocos_main" then some 5
  else if strStarts lower "_zn4game" && strContains lower "initev" then some 6
  else if eqFold name "JNI_OnLoad" then some 7
  else none

/-- An entry-point candidate, as collected by FindEntryPoint. -/
structure Candidate where
  name : String
  addr : Nat
  priority : Nat
deriving DecidableEq

/-- The candidate list FindEntryPoint collects while iterating the symbol
map in the given order: symbols with address 0 or an excluded name are
skipped, the rest are classified by the priority ladder. -/
def entryCandidates (symbols : List (String × Nat)) : List Candidate :=
  symbols.filterMap (fun p =>
    if p.2 = 0 then none
    else if excludedEntrySym (strLower p.1) then none
    else (entryPriority p.1).map (fun pr => ⟨p.1, p.2, pr⟩))

/-- The best-candidate fold of FindEntryPoint: start from the first
candidate and replace it only on strictly smaller priority. -/
def pickBest : List Candidate → Option Candidate
  | [] => none
  | c :: rest =>
    some (rest.foldl (fun best x => if x.priority < best.priority then x else best) c)

/-- ELFInfo.FindEntryPoint: preferred-name three-stage match (exact, then
case-insensitive, then case-insensitive substring, each in iteration
order), then the priority scan, then the JNI_OnLoad fallback, then the ELF
entry. -/
def FindEntryPoint (info : ELFInfo) (preferred : String) : Nat :=
  let stage2 := (info.symbols.find? (fun p => eqFold p.1 preferred)).map Prod.snd
  let stage3 := (info.symbols.find?
      (fun p => strContains (strLower p.1) (strLower preferred))).map Prod.snd
  let viaPreferred : Option Nat :=
    if preferred ≠ "" then
      if FindSymbol info preferred ≠ 0 then some (FindSymbol info preferred)
      else
        match stage2 with
        | some a => some a
        | none => stage3
    else none
  match viaPreferred with
  | some a => a
  | none =>
    match (pickBest (entryCandidates info.symbols)).map Candidate.addr with
    | some a => a
    | none => if FindJNIOnLoad info ≠ 0 then FindJNIOnLoad info else info.entry

/-- Counterexample to claim C4 as stated: two iteration orders of the same
symbol table give different pick_entry results, both for the empty
preferred name (two distinct-address candidates tie at priority 3; the
winner is the first seen, i.e. iteration order, not insertion order) and
for an explicit preferred name whose substring stage matches two
distinct-address symbols. -/
theorem claim_C4_counterexample :
    ([("Adidfinishlaunching", 0x1000), ("Bdidfinishlaunching", 0x2000)] :
        List (String × Nat)).Perm
      [("Bdidfinishlaunching", 0x2000), ("Adidfinishlaunching", 0x1000)] ∧
    FindEntryPoint ⟨[("Adidfinishlaunching", 0x1000), ("Bdidfinishlaunching", 0x2000)], 0⟩ ""
      ≠ FindEntryPoint ⟨[("Bdidfinishlaunching", 0x2000), ("Adidfinishlaunching", 0x1000)], 0⟩ "" ∧
    ([("foo_bar", 0x1000), ("foo_baz", 0x2000)] : List (String × Nat)).Perm
      [("foo_baz", 0x2000), ("foo_bar", 0x1000)] ∧
    FindEntryPoint ⟨[("foo_bar", 0x1000), ("foo_baz", 0x2000)], 0⟩ "foo"
      ≠ FindEntryPoint ⟨[("foo_baz", 0x2000), ("foo_bar", 0x1000)], 0⟩ "foo" := by
  refine ⟨by decide, by decide, by decide, by decide⟩

/-- Side conditions under which entry-point selection does not depend on
the symbol-map iteration order: keys are distinct (as in a Go map), and
within each match stage all matching symbols share one address. -/
abbrev EntrySelUnique (symbols : List (String × Nat)) (preferred : String) : Prop :=
  (symbols.map Prod.fst).Nodup ∧
  (∀ p ∈ symbols, ∀ q ∈ symbols,
      eqFold p.1 preferred → eqFold q.1 preferred → p.2 = q.2) ∧
  (∀ p ∈ symbols, ∀ q ∈ symbols,
      strContains (strLower p.1) (strLower preferred) →
      strContains (strLower q.1) (strLower preferred) → p.2 = q.2) ∧
  (∀ c ∈ entryCandidates symbols, ∀ d ∈ entryCandidates symbols,
      (∀ x ∈ entryCandidates symbols, c.priority ≤ x.priority) →
      (∀ x ∈ entryCandidates symbols, d.priority ≤ x.priority) → c.addr = d.addr) ∧
  (∀ p ∈ symbols, ∀ q ∈ symbols,
      eqFold p.1 "JNI_OnLoad" → eqFold q.1 "JNI_OnLoad" → p.2 = q.2)

/-- Map lookups agree on permuted association lists with distinct keys. -/
theorem lookupAddr_perm {t t' : List (String × Nat)} (h : t.Perm t')
    (hnd : (t.map Prod.fst).Nodup) (n : String) :
    lookupAddr t n = lookupAddr t' n := by
  induction h with
  | nil => rfl
  | cons p _ ih =>
    simp only [List.map_cons, List.nodup_cons] at hnd
    simp only [lookupAddr, ih hnd.2]
  | swap p q l =>
    simp only [List.map_cons, List.nodup_cons, List.mem_cons] at hnd
    by_cases hp : p.1 = n <;> by_cases hq : q.1 = n <;>
      simp_all [lookupAddr]
  | trans h₁ h₂ ih₁ ih₂ =>
    rw [ih₁ hnd, ih₂ ((h₁.map Prod.fst).nodup_iff.mp hnd)]

/-- On permuted lists whose matching elements all share the same
projection, the projection of the first match is order-independent. -/
theorem find?_map_perm {α β : Type} {t t' : List α} (h : t.Perm t')
    (pred : α → Bool) (f : α → β)
    (huniq : ∀ p ∈ t, ∀ q ∈ t, pred p → pred q → f p = f q) :
    (t.find? pred).map f = (t'.find? pred).map f := by
  cases hfind : t.find? pred with
  | none =>
    cases hfind' : t'.find? pred with
    | none => rfl
    | some q =>
      exact absurd (List.find?_some hfind')
        (List.find?_eq_none.mp hfind q (h.mem_iff.mpr (List.mem_of_find?_eq_some hfind')))
  | some p =>
    cases hfind' : t'.find? pred with
    | none =>
      exact absurd (List.find?_some hfind)
        (List.find?_eq_none.mp hfind' p (h.mem_iff.mp (List.mem_of_find?_eq_some hfind)))
    | some q =>
      have hp := List.mem_of_find?_eq_some hfind
      have hq := h.mem_iff.mpr (List.mem_of_find?_eq_some hfind')
      simp only [Option.map_some']
      exact congrArg some
        (huniq p hp q hq (List.find?_some hfind) (List.find?_some hfind'))

/-- The strict-less replacement fold of pickBest lands on an element of
the accumulator-or-list. -/
theorem foldlBest_mem (acc : Candidate) (xs : List Candidate) :
    xs.foldl (fun best x => if x.priority < best.priority then x else best) acc
      ∈ acc :: xs := by
  induction xs generalizing acc with
  | nil => exact List.mem_singleton.mpr rfl
  | cons x xs ih =>
    simp only [List.foldl_cons]
    have h := ih (if x.priority < acc.priority then x else acc)
    rcases List.mem_cons.mp h with h' | h'
    · rw [h']
      by_cases hx : x.priority < acc.priority
      · rw [if_pos hx]
        exact List.mem_cons_of_mem _ (List.mem_cons_self _ _)
      · rw [if_neg hx]
        exact List.mem_cons_self _ _
    · exact List.mem_cons_of_mem _ (List.mem_cons_of_mem _ h')

/-- The strict-less replacement fold of pickBest attains the least
priority among the accumulator and the list. -/
theorem foldlBest_le (acc : Candidate) (xs : List Candidate) :
    (xs.foldl (fun best x => if x.priority < best.priority then x else best)
        acc).priority ≤ acc.priority ∧
    ∀ d ∈ xs,
      (xs.foldl (fun best x => if x.priority < best.priority then x else best)
          acc).priority ≤ d.priority := by
  induction xs generalizing acc with
  | nil => exact ⟨le_rfl, by intro d hd; cases hd⟩
  | cons x xs ih =>
    simp only [List.foldl_cons]
    refine ⟨le_trans (ih _).1 ?_, ?_⟩
    · by_cases hx : x.priority < acc.priority
      · rw [if_pos hx]
        exact le_of_lt hx
      · rw [if_neg hx]
    · intro d hd
      rcases List.mem_cons.mp hd with rfl | hd'
      · refine le_trans (ih _).1 ?_
        by_cases hx : d.priority < acc.priority
        · rw [if_pos hx]
        · rw [if_neg hx]
          exact le_of_not_lt hx
      · exact (ih _).2 d hd'

/-- The best-candidate fold returns an element of the list. -/
theorem pickBest_mem {l : List Candidate} {c : Candidate}
    (h : pickBest l = some c) : c ∈ l := by
  cases l with
  | nil => cases h
  | cons a rest =>
    simp only [pickBest, Option.some.injEq] at h
    exact h ▸ foldlBest_mem a rest

/-- The best-candidate fold attains the least priority of the list. -/
theorem pickBest_le {l : List Candidate} {c : Candidate}
    (h : pickBest l = some c) : ∀ d ∈ l, c.priority ≤ d.priority := by
  cases l with
  | nil => cases h
  | cons a rest =>
    simp only [pickBest, Option.some.injEq] at h
    intro d hd
    rcases List.mem_cons.mp hd with rfl | hd'
    · exact h ▸ (foldlBest_le d rest).1
    · exact h ▸ (foldlBest_le a rest).2 d hd'

/-- Claim C4, amended: entry-point selection is a function of the symbol
table and its iteration order.  The scan always selects a candidate
attaining the least priority of the priority ladder; the result is
iteration-order independent when no two distinct addresses tie in the
decisive match stage (ties are broken by iteration order, which for a Go
map is not insertion order), and likewise the preferred-name three-stage
match is order-independent when each stage's matches share one address. -/
theorem claim_C4 (t t' : List (String × Nat)) (e : Nat) (preferred : String)
    (hperm : t.Perm t') (huniq : EntrySelUnique t preferred) :
    FindEntryPoint ⟨t, e⟩ preferred = FindEntryPoint ⟨t', e⟩ preferred ∧
    (∀ c, pickBest (entryCandidates t) = some c →
      c ∈ entryCandidates t ∧ ∀ d ∈ entryCandidates t, c.priority ≤ d.priority) := by
  obtain ⟨hnd, heqf, hsub, hmin, hjni⟩ := huniq
  have hcand : (entryCandidates t).Perm (entryCandidates t') := hperm.filterMap _
  have hlook : ∀ n, lookupAddr t n = lookupAddr t' n := fun n => lookupAddr_perm hperm hnd n
  have hfs : ∀ n, FindSymbol ⟨t, e⟩ n = FindSymbol ⟨t', e⟩ n := by
    intro n
    simp only [FindSymbol, hlook]
  have hjniEq : FindJNIOnLoad ⟨t, e⟩ = FindJNIOnLoad ⟨t', e⟩ := by
    have hf := find?_map_perm hperm (fun p => eqFold p.1 "JNI_OnLoad") Prod.snd hjni
    simp only [FindJNIOnLoad, hfs, hf]
  have hpb : (pickBest (entryCandidates t)).map Candidate.addr
      = (pickBest (entryCandidates t')).map Candidate.addr := by
    cases h1 : pickBest (entryCandidates t) with
    | none =>
      cases h2 : pickBest (entryCandidates t') with
      | none => rfl
      | some c =>
        have hnil : entryCandidates t = [] := by
          cases hc : entryCandidates t with
          | nil => rfl
          | cons a l => rw [hc] at h1; cases h1
        rw [hnil] at hcand
        rw [hcand.symm.eq_nil] at h2
        cases h2
    | some c =>
      cases h2 : pickBest (entryCandidates t') with
      | none =>
        have hnil : entryCandidates t' = [] := by
          cases hc : entryCandidates t' with
          | nil => rfl
          | cons a l => rw [hc] at h2; cases h2
        rw [hnil] at hcand
        rw [hcand.eq_nil] at h1
        cases h1
      | some d =>
        have hcmem : c ∈ entryCandidates t := pickBest_mem h1
        have hdmem : d ∈ entryCandidates t := hcand.mem_iff.mpr (pickBest_mem h2)
        have hcle : ∀ x ∈ entryCandidates t, c.priority ≤ x.priority := pickBest_le h1
        have hdle : ∀ x ∈ entryCandidates t, d.priority ≤ x.priority := by
          intro x hx
          exact pickBest_le h2 x (hcand.mem_iff.mp hx)
        simp only [Option.map_some', Option.some.injEq]
        exact hmin c hcmem d hdmem hcle hdle
  refine ⟨?_, fun c hc => ⟨pickBest_mem hc, pickBest_le hc⟩⟩
  have hfold := find?_map_perm hperm (fun p => eqFold p.1 preferred) Prod.snd heqf
  have hsubm := find?_map_perm hperm
    (fun p => strContains (strLower p.1) (strLower preferred)) Prod.snd hsub
  simp only [FindEntryPoint, hfs, hfold, hsubm, hpb, hjniEq]

/-- Witness for claim C4 on a one-symbol table, where the uniqueness side
condition holds trivially. -/
theorem claim_C4_witness :
    FindEntryPoint ⟨[("regist_lua_x", 0x1000)], 7⟩ ""
      = FindEntryPoint ⟨[("regist_lua_x", 0x1000)], 7⟩ "" ∧
    (⟨"regist_lua_x", 0x1000, 0⟩ : Candidate)
      ∈ entryCandidates [("regist_lua_x", 0x1000)] := by
  have h := claim_C4 [("regist_lua_x", 0x1000)] [("regist_lua_x", 0x1000)] 7 ""
    (List.Perm.refl _) (by decide)
  refine ⟨h.1, ?_⟩
  exact (h.2 ⟨"regist_lua_x", 0x1000, 0⟩ (by decide)).1

/-! ## Guest memory as a partial byte function

Hooks and the string codec read arbitrary guest memory.  It is modelled as
`Nat → Option Nat`: `none` is an unmapped byte, and a multi-byte read
fails (like Unicorn's MemRead) as soon as it touches an unmapped byte.
Writes are modelled as total function updates: every write the embedded
code performs targets mapped memory in the scenarios the claims quantify
over, and the Go hooks ignore MemWrite errors.
-/

/-- Guest memory: byte value by address, none when unmapped. -/
abbrev GMem := Nat → Option Nat

/-- Emulator.MemRead of n bytes starting at addr. -/
def memRead (m : GMem) (addr : Nat) : Nat → Option (List Nat)
  | 0 => some []
  | n + 1 =>
    match m addr with
    | none => none
    | some b => (memRead m (addr + 1) n).map (fun bs => b :: bs)

/-- Truncate a byte list at the first NUL byte. -/
def takeUntilNul : List Nat → List Nat
  | [] => []
  | b :: rest => if b = 0 then [] else b :: takeUntilNul rest

/-- Emulator.MemReadString: read maxLen bytes (4096 when the caller passes
a non-positive bound) and truncate at the first NUL. -/
def memReadString (m : GMem) (addr maxLen : Nat) : Option (List Nat) :=
  (memRead m addr (if maxLen = 0 then 4096 else maxLen)).map takeUntilNul

/-- Emulator.MemWrite of a byte list at addr. -/
def memWrite (m : GMem) (addr : Nat) (bs : List Nat) : GMem :=
  fun a => if addr ≤ a ∧ a < addr + bs.length then some (bs.getD (a - addr) 0) else m a

/-- Little-endian 64-bit value decoded from data[off..off+8). -/
def leVal8 (data : List Nat) (off : Nat) : Nat :=
  (List.range 8).foldr (fun i acc => acc * 256 + data.getD (off + i) 0) 0

/-- Reads only depend on the bytes of the range read. -/
theorem memRead_congr {m1 m2 : GMem} (addr n : Nat)
    (h : ∀ i < n, m1 (addr + i) = m2 (addr + i)) :
    memRead m1 addr n = memRead m2 addr n := by
  induction n generalizing addr with
  | zero => rfl
  | succ k ih =>
    have h0 := h 0 (Nat.succ_pos k)
    simp only [Nat.add_zero] at h0
    simp only [memRead, h0]
    cases m2 addr with
    | none => rfl
    | some b =>
      rw [ih (addr + 1) (fun i hi => by
        rw [show addr + 1 + i = addr + (i + 1) from by omega]
        exact h (i + 1) (by omega))]

/-- A byte inside a write's range reads back the written byte. -/
theorem memWrite_get_inside (m : GMem) (a : Nat) (bs : List Nat) {i : Nat}
    (h : i < bs.length) : memWrite m a bs (a + i) = some (bs.getD i 0) := by
  simp only [memWrite]
  rw [if_pos ⟨Nat.le_add_right a i, by omega⟩, Nat.add_sub_cancel_left]

/-- A byte outside a write's range is unaffected. -/
theorem memWrite_get_outside (m : GMem) (a : Nat) (bs : List Nat) (x : Nat)
    (h : x < a ∨ a + bs.length ≤ x) : memWrite m a bs x = m x := by
  simp only [memWrite]
  rw [if_neg (by omega)]

/-- Reading a write back in full returns the written bytes. -/
theorem memRead_memWrite_self (m : GMem) (a : Nat) (bs : List Nat) :
    memRead (memWrite m a bs) a bs.length = some bs := by
  induction bs generalizing m a with
  | nil => rfl
  | cons b rest ih =>
    have h0 : memWrite m a (b :: rest) a = some b := by
      have := memWrite_get_inside m a (b :: rest) (i := 0) (by simp)
      simpa using this
    simp only [List.length_cons, memRead, h0]
    have hcongr : memRead (memWrite m a (b :: rest)) (a + 1) rest.length
        = memRead (memWrite m (a + 1) rest) (a + 1) rest.length := by
      apply memRead_congr
      intro i hi
      have l1 : memWrite m a (b :: rest) (a + (i + 1)) = some ((b :: rest).getD (i + 1) 0) :=
        memWrite_get_inside m a (b :: rest) (by simpa using Nat.succ_lt_succ hi)
      have l2 : memWrite m (a + 1) rest (a + 1 + i) = some (rest.getD i 0) :=
        memWrite_get_inside m (a + 1) rest hi
      rw [show a + 1 + i = a + (i + 1) from by omega] at l2 ⊢
      rw [l1, l2, List.getD_cons_succ]
    rw [hcongr, ih]
    rfl

/-- Reading a prefix of a write returns the prefix of the written bytes. -/
theorem memRead_memWrite_prefix (m : GMem) (a : Nat) (bs : List Nat) (n : Nat)
    (h : n ≤ bs.length) : memRead (memWrite m a bs) a n = some (bs.take n) := by
  have heq : memRead (memWrite m a bs) a n
      = memRead (memWrite m a (bs.take n)) a n := by
    apply memRead_congr
    intro i hi
    rw [memWrite_get_inside m a bs (lt_of_lt_of_le hi h),
      memWrite_get_inside m a (bs.take n)
        (by rw [List.length_take]; exact lt_min hi (lt_of_lt_of_le hi h))]
    simp [List.getD_eq_getElem?_getD, List.getElem?_take, hi]
  rw [heq]
  have hlen := memRead_memWrite_self m a (bs.take n)
  rwa [List.length_take, min_eq_left h] at hlen

/-- Reading a range disjoint from a write sees the underlying memory. -/
theorem memRead_memWrite_outside (m : GMem) (a : Nat) (bs : List Nat) (b n : Nat)
    (h : b + n ≤ a ∨ a + bs.length ≤ b) :
    memRead (memWrite m a bs) b n = memRead m b n := by
  apply memRead_congr
  intro i hi
  exact memWrite_get_outside m a bs (b + i) (by omega)

/-- Reconstruction of a value from its base-256 digits. -/
theorem foldr_digits (f : Nat → Nat) (v : Nat) :
    ∀ (k init : Nat), (∀ i < k, f i = v / 256 ^ i % 256) →
      (List.range k).foldr (fun i acc => acc * 256 + f i) init
        = init * 256 ^ k + v % 256 ^ k := by
  intro k
  induction k with
  | zero => intro init _; simp [Nat.mod_one]
  | succ k ih =>
    intro init h
    rw [List.range_succ, List.foldr_append, List.foldr_cons, List.foldr_nil]
    rw [ih (init * 256 + f k) (fun i hi => h i (by omega)), h k (by omega),
      Nat.mod_pow_succ]
    ring

/-- The little-endian byte list of a value has 8 bytes. -/
theorem le64Bytes_length (v : Nat) : (le64Bytes v).length = 8 := by
  simp [le64Bytes]

/-- Decoding the little-endian encoding of a value (with any trailing
bytes) recovers the value modulo 2^64. -/
theorem leVal8_le64Bytes (v : Nat) (rest : List Nat) :
    leVal8 (le64Bytes v ++ rest) 0 = v % U64 := by
  have h : ∀ i < 8, (le64Bytes v ++ rest).getD (0 + i) 0 = v / 256 ^ i % 256 := by
    intro i hi
    rw [Nat.zero_add, List.getD_append _ _ _ i (by rw [le64Bytes_length]; exact hi)]
    simp [le64Bytes, List.getD_eq_getElem?_getD, List.getElem?_map,
      List.getElem?_range, hi, le64]
  have hd := foldr_digits (fun i => (le64Bytes v ++ rest).getD (0 + i) 0) v 8 0 h
  simpa [leVal8, U64] using hd

/-- Decoding at an offset past a leading block skips that block. -/
theorem leVal8_append_left (xs ys : List Nat) (off : Nat) :
    leVal8 (xs ++ ys) (xs.length + off) = leVal8 ys off := by
  simp only [leVal8]
  congr 1
  funext i acc
  rw [List.getD_append_right _ _ _ _ (by omega),
    show xs.length + off + i - xs.length = off + i from by omega]

/-! ## The libc++ SSO string codec (internal/stubs/cxxabi/string.go)

WriteSSOString and ReadSSOString take the emulator state they use — the
guest memory and (for long-string allocation) the bump pointer —
explicitly.  A failed Malloc (Go panic) makes the write return none.
-/

/-- WriteSSOString: short form for len ≤ 22 (tag byte, inline characters,
zero fill), else allocate roundup(len+1,16) heap bytes, store data+NUL
there, and write the 24-byte long-form header.  Returns the new guest
memory and bump pointer. -/
def WriteSSOString (m : GMem) (heapPtr addr : Nat) (str : List Nat) :
    Option (GMem × Nat) :=
  let strLen := str.length
  if strLen ≤ 22 then
    some (memWrite m addr ((strLen * 2 % 256) :: (str ++ List.replicate (23 - strLen) 0)),
      heapPtr)
  else
    let bufSize := align16 (strLen + 1)
    match Malloc heapPtr bufSize with
    | none => none
    | some (dataPtr, hp) =>
      let m1 := memWrite m dataPtr (str ++ [0])
      some (memWrite m1 addr
        (le64Bytes (bufSize ||| 1) ++ le64Bytes strLen ++ le64Bytes dataPtr), hp)

/-- ReadSSOString: reject tiny addresses, read the 24-byte object, branch
on bit 0 of byte 0; long strings reject length > 4096 or a data pointer
below 0x1000 and read the data from the heap. -/
def ReadSSOString (m : GMem) (addr : Nat) : Option (List Nat) :=
  if addr = 0 ∨ addr < 0x1000 then none
  else
    match memRead m addr 24 with
    | none => none
    | some data =>
      if data.getD 0 0 % 2 = 1 then
        let length := leVal8 data 8
        let dataPtr := leVal8 data 16
        if 4096 < length ∨ dataPtr < 0x1000 then none
        else
          match memRead m dataPtr length with
          | none => none
          | some strData => some strData
      else
        let length := data.getD 0 0 / 2
        if 22 < length then none
        else some ((data.drop 1).take length)

/-- Counterexample to claim C8 as stated: writing a 23-byte string at the
valid writable heap address HeapBase+8 from a fresh state allocates the
data block at HeapBase, so the object write overlaps its own heap data;
reading back yields header bytes instead of the string. -/
theorem claim_C8_counterexample :
    (WriteSSOString (fun _ => some 0) HeapBase (HeapBase + 8)
        (List.replicate 23 65)).map (fun p => ReadSSOString p.1 (HeapBase + 8))
      = some (some [65, 65, 65, 65, 65, 65, 65, 65,
          33, 0, 0, 0, 0, 0, 0, 0, 23, 0, 0, 0, 0, 0, 0]) ∧
    ([65, 65, 65, 65, 65, 65, 65, 65,
        33, 0, 0, 0, 0, 0, 0, 0, 23, 0, 0, 0, 0, 0, 0] : List Nat)
      ≠ List.replicate 23 65 := by
  refine ⟨by decide, by decide⟩

/-- Bit 0 of an or-with-1 is set. -/
theorem lor_one_mod_two (x : Nat) : (x ||| 1) % 2 = 1 := by
  have h : (x ||| 1).testBit 0 = true := by
    rw [Nat.testBit_lor]
    simp
  simpa [Nat.testBit_zero] using h

/-- Claim C8, amended: the SSO round-trip holds for every printable string
of length at most 1024 at every valid writable address whose 24-byte
object extent does not overlap the freshly allocated heap data block (the
overlap is only possible in the long form, when the object itself lies at
the top of the bump heap); the written object is classified short (bit 0
of byte 0 clear) exactly when len ≤ 22. -/
theorem claim_C8 (m : GMem) (heapPtr addr : Nat) (str : List Nat)
    (m' : GMem) (hp' : Nat)
    (hlen : str.length ≤ 1024)
    (hprint : ∀ c ∈ str, 0x20 ≤ c ∧ c ≤ 0x7e)
    (haddr : 0x1000 ≤ addr)
    (hwf : HeapWF heapPtr)
    (hdisj : 22 < str.length →
      addr + 24 ≤ heapPtr ∨ heapPtr + align16 (str.length + 1) ≤ addr)
    (hw : WriteSSOString m heapPtr addr str = some (m', hp')) :
    ReadSSOString m' addr = some str ∧
    (m' addr).getD 0 % 2 = (if str.length ≤ 22 then 0 else 1) := by
  obtain ⟨hwfl, hwfm, hwfu⟩ := hwf
  have hHeapLo : (0x90000000 : Nat) ≤ heapPtr := hwfl
  have hnot0 : ¬(addr = 0 ∨ addr < 0x1000) := by omega
  by_cases hshort : str.length ≤ 22
  · -- short form
    simp only [WriteSSOString, if_pos hshort, Option.some.injEq, Prod.mk.injEq] at hw
    obtain ⟨hm', _⟩ := hw
    subst hm'
    set sso := (str.length * 2 % 256) :: (str ++ List.replicate (23 - str.length) 0)
      with hsso
    have hlen24 : sso.length = 24 := by
      simp only [hsso, List.length_cons, List.length_append, List.length_replicate]
      omega
    have hread : memRead (memWrite m addr sso) addr 24 = some sso := by
      have := memRead_memWrite_self m addr sso
      rwa [hlen24] at this
    have hb0 : sso.getD 0 0 = str.length * 2 := by
      simp only [hsso, List.getD_cons_zero]
      omega
    have hb0mem : memWrite m addr sso addr = some (sso.getD 0 0) := by
      have := memWrite_get_inside m addr sso (i := 0) (by omega)
      simpa using this
    constructor
    · simp only [ReadSSOString, if_neg hnot0, hread]
      rw [hb0]
      have heven : str.length * 2 % 2 = 0 := by omega
      rw [if_neg (by omega)]
      have hlen2 : str.length * 2 / 2 = str.length := by omega
      rw [hlen2, if_neg (by omega)]
      congr 1
      simp only [hsso, List.drop_one, List.tail_cons]
      have : (str ++ List.replicate (23 - str.length) 0).take str.length = str :=
        List.take_left str _
      exact this
    · rw [hb0mem, Option.getD_some, hb0, if_pos hshort]
      omega
  · -- long form
    have hlong : 22 < str.length := by omega
    simp only [WriteSSOString, if_neg hshort] at hw
    have hbufeq : align16 (str.length + 1) = (str.length + 16) / 16 * 16 := by
      have h1 : str.length + 1 + 15 < U64 := by simp only [U64]; omega
      simp only [align16, Nat.mod_eq_of_lt h1]
    have hbufle : align16 (str.length + 1) ≤ 1040 := by rw [hbufeq]; omega
    have hbufge : str.length + 1 ≤ align16 (str.length + 1) := by rw [hbufeq]; omega
    have hidem : align16 (align16 (str.length + 1)) = align16 (str.length + 1) := by
      have hm16 := align16_mod16 (str.length + 1)
      have h1 : align16 (str.length + 1) + 15 < U64 := by simp only [U64]; omega
      conv =>
        lhs
        rw [align16]
      rw [Nat.mod_eq_of_lt h1]
      omega
    have hnowrap : heapPtr + align16 (align16 (str.length + 1)) < U64 := by
      rw [hidem]
      simp only [HeapBase, HeapSize, U64] at hwfu ⊢
      omega
    by_cases hfit : HeapBase + HeapSize ≤ heapPtr + align16 (align16 (str.length + 1))
    · have hnone : Malloc heapPtr (align16 (str.length + 1)) = none := by
        simp only [Malloc, Nat.mod_eq_of_lt hnowrap, if_pos hfit]
      rw [hnone] at hw
      cases hw
    · have hmal : Malloc heapPtr (align16 (str.length + 1))
          = some (heapPtr, heapPtr + align16 (str.length + 1)) := by
        simp only [Malloc, Nat.mod_eq_of_lt hnowrap, if_neg hfit]
        rw [hidem]
      rw [hmal] at hw
      simp only [Option.some.injEq, Prod.mk.injEq] at hw
      obtain ⟨hm', hhp⟩ := hw
      subst hm'
      set m1 := memWrite m heapPtr (str ++ [0]) with hm1
      set sso := le64Bytes (align16 (str.length + 1) ||| 1) ++ le64Bytes str.length
          ++ le64Bytes heapPtr with hssodef
      have hssolen : sso.length = 24 := by
        simp [hssodef, le64Bytes_length]
      have hread24 : memRead (memWrite m1 addr sso) addr 24 = some sso := by
        have hs := memRead_memWrite_self m1 addr sso
        rwa [hssolen] at hs
      have hb0 : sso.getD 0 0 = (align16 (str.length + 1) ||| 1) % 256 := by
        rw [hssodef, List.append_assoc,
          List.getD_append _ _ _ 0 (by rw [le64Bytes_length]; omega)]
        simp [le64Bytes, le64, List.getD_eq_getElem?_getD]
      have hpar : sso.getD 0 0 % 2 = 1 := by
        rw [hb0, Nat.mod_mod_of_dvd _ (by norm_num : (2 : Nat) ∣ 256)]
        exact lor_one_mod_two _
      have hlenf : leVal8 sso 8 = str.length := by
        rw [hssodef, List.append_assoc]
        rw [show (8 : Nat) = (le64Bytes (align16 (str.length + 1) ||| 1)).length + 0 by
          rw [le64Bytes_length]]
        rw [leVal8_append_left, leVal8_le64Bytes]
        exact Nat.mod_eq_of_lt (by simp only [U64]; omega)
      have hptrf : leVal8 sso 16 = heapPtr := by
        rw [hssodef, List.append_assoc]
        rw [show (16 : Nat) = (le64Bytes (align16 (str.length + 1) ||| 1)).length + 8 by
          rw [le64Bytes_length]]
        rw [leVal8_append_left]
        rw [show (8 : Nat) = (le64Bytes str.length).length + 0 by rw [le64Bytes_length]]
        rw [leVal8_append_left]
        rw [show le64Bytes heapPtr = le64Bytes heapPtr ++ [] from (List.append_nil _).symm,
          leVal8_le64Bytes]
        exact Nat.mod_eq_of_lt (by simp only [HeapBase, HeapSize, U64] at hwfu ⊢; omega)
      have hdata : memRead (memWrite m1 addr sso) heapPtr str.length = some str := by
        have hout : memRead (memWrite m1 addr sso) heapPtr str.length
            = memRead m1 heapPtr str.length := by
          apply memRead_memWrite_outside
          rcases hdisj hlong with hca | hcb
          · right
            rw [hssolen]
            exact hca
          · left
            omega
        rw [hout, hm1]
        have hpre := memRead_memWrite_prefix m heapPtr (str ++ [0]) str.length
          (by simp)
        rwa [List.take_left str [0]] at hpre
      constructor
      · simp only [ReadSSOString, if_neg hnot0, hread24]
        rw [if_pos hpar, hlenf, hptrf,
          if_neg (by simp only [HeapBase] at hwfl; omega), hdata]
      · have hb0mem : memWrite m1 addr sso addr = some (sso.getD 0 0) := by
          have hg := memWrite_get_inside m1 addr sso (i := 0) (by rw [hssolen]; omega)
          simpa using hg
        rw [hb0mem, Option.getD_some, if_neg hshort]
        exact hpar

/-- Witness for claim C8 at a concrete input: the 3-byte string "KEY"
written at the stack address StackBase round-trips. -/
theorem claim_C8_witness :
    ReadSSOString (memWrite (fun _ => some 0) StackBase
        (([75, 69, 89].length * 2 % 256) ::
          ([75, 69, 89] ++ List.replicate (23 - [75, 69, 89].length) 0))) StackBase
      = some [75, 69, 89] ∧
    ((memWrite (fun _ => some 0) StackBase
        (([75, 69, 89].length * 2 % 256) ::
          ([75, 69, 89] ++ List.replicate (23 - [75, 69, 89].length) 0))) StackBase).getD 0 % 2
      = (if ([75, 69, 89] : List Nat).length ≤ 22 then 0 else 1) := by
  exact claim_C8 (fun _ => some 0) HeapBase StackBase [75, 69, 89] _ _
    (by decide) (by decide) (by decide) (by decide)
    (fun hc => absurd hc (by decide)) rfl

/-! ## Registry.Install (package stubs)

Install attaches hooks to the emulator and consults/updates its seen and
stubbed address sets.  Its observable effects on the emulator are recorded
as a list; detector activation (step 3 of the install cycle) runs
component-owned activation functions and is outside this embedding, which
covers the StubDef passes and the fallback pass.
-/

/-- One observable effect of Registry.Install on the emulator. -/
inductive InstallEffect
  | hookAt (addr : Nat)
  | memWriteAt (addr : Nat) (bytes : List Nat)
deriving DecidableEq

/-- The `installStub` helper closure of Registry.Install: dedupe by the
seen set, then attach the hook and mark the address stubbed.  Returns the
effects plus the updated seen and stubbed sets. -/
def installStub (seen stubbed : List Nat) (addr : Nat) :
    List InstallEffect × List Nat × List Nat :=
  if addr ∈ seen then ([], seen, stubbed)
  else ([InstallEffect.hookAt addr], addr :: seen, addr :: stubbed)

/-- One stub-installation pass of Registry.Install: for every registered
stub name (in registry iteration order), look the name up in the given
symbol table and install at its nonzero address. -/
def installPass (stubs : List String) (symtab : List (String × Nat))
    (seen stubbed : List Nat) : List InstallEffect × List Nat × List Nat :=
  stubs.foldl (fun (acc : List InstallEffect × List Nat × List Nat) (name : String) =>
    match lookupAddr symtab name with
    | some addr =>
      if addr ≠ 0 then
        let r := installStub acc.2.1 acc.2.2 addr
        (acc.1 ++ r.1, r.2.1, r.2.2)
      else acc
    | none => acc) ([], seen, stubbed)

/-- Registry.Install, steps 4-6: the import pass, the passes over the
additional symbol maps, and (when enabled) the fallback pass installing a
zero-returning hook at every still-unhooked import address.  Returns the
list of effects on the emulator in order. -/
def RegistryInstall (stubs : List String) (imports : List (String × Nat))
    (symbolMaps : List (List (String × Nat))) (installFallbacks : Bool) :
    List InstallEffect :=
  let p1 := installPass stubs imports [] []
  let p2 := symbolMaps.foldl
    (fun (acc : List InstallEffect × List Nat × List Nat) (syms : List (String × Nat)) =>
      let p := installPass stubs syms acc.2.1 acc.2.2
      (acc.1 ++ p.1, p.2.1, p.2.2)) (p1.1, p1.2.1, p1.2.2)
  if installFallbacks then
    (imports.foldl (fun (acc : List InstallEffect × List Nat) (pr : String × Nat) =>
      if pr.2 = 0 ∨ pr.2 ∈ p2.2.2 ∨ pr.2 ∈ acc.2 then acc
      else (acc.1 ++ [InstallEffect.hookAt pr.2], pr.2 :: acc.2)) (p2.1, p2.2.1)).1
  else p2.1

/-- An effect list containing no memory write. -/
def HookOnly (effs : List InstallEffect) : Prop :=
  ∀ e ∈ effs, ∀ a bs, e ≠ InstallEffect.memWriteAt a bs

/-- Counterexample to claim C5 as stated: installing over one import with
no matching StubDef and fallbacks enabled hooks the import address but
performs no memory write at all — in particular, no 4-byte RET body is
written at the PLT stub address. -/
theorem claim_C5_counterexample :
    RegistryInstall [] [("foo", 0xF0000020)] [] true
      = [InstallEffect.hookAt 0xF0000020] ∧
    InstallEffect.memWriteAt 0xF0000020 retInsn
      ∉ RegistryInstall [] [("foo", 0xF0000020)] [] true := by
  refine ⟨by decide, by decide⟩

/-- An installPass only ever emits hook effects. -/
theorem installPass_hookOnly (stubs : List String) (symtab : List (String × Nat)) :
    ∀ (acc : List InstallEffect × List Nat × List Nat), HookOnly acc.1 →
      HookOnly (stubs.foldl (fun (acc : List InstallEffect × List Nat × List Nat) (name : String) =>
        match lookupAddr symtab name with
        | some addr =>
          if addr ≠ 0 then
            let r := installStub acc.2.1 acc.2.2 addr
            (acc.1 ++ r.1, r.2.1, r.2.2)
          else acc
        | none => acc) acc).1 := by
  induction stubs with
  | nil => intro acc h; exact h
  | cons name rest ih =>
    intro acc h
    simp only [List.foldl_cons]
    apply ih
    cases hlk : lookupAddr symtab name with
    | none => simpa [hlk] using h
    | some addr =>
      by_cases hz : addr ≠ 0
      · simp only [hlk, if_pos hz]
        intro e he a bs
        rcases List.mem_append.mp he with he1 | he2
        · exact h e he1 a bs
        · simp only [installStub] at he2
          split at he2
          · cases he2
          · rcases List.mem_singleton.mp he2 with rfl
            intro hcontra
            cases hcontra
      · simpa [hlk, hz] using h

/-- Claim C5, amended: Install attaches a hook at every import address it
covers (via a matching StubDef or via the fallback path) but writes
nothing into emulator memory — in particular it does not synthesize any
RET instruction body at the PLT stub addresses it hooks. -/
theorem claim_C5 (stubs : List String) (imports : List (String × Nat))
    (symbolMaps : List (List (String × Nat))) (installFallbacks : Bool) :
    HookOnly (RegistryInstall stubs imports symbolMaps installFallbacks) := by
  have h1 : HookOnly (installPass stubs imports [] []).1 :=
    installPass_hookOnly stubs imports ([], [], []) (by intro e he; cases he)
  have h2 : ∀ (acc : List InstallEffect × List Nat × List Nat), HookOnly acc.1 →
      HookOnly (symbolMaps.foldl
        (fun (acc : List InstallEffect × List Nat × List Nat) (syms : List (String × Nat)) =>
          let p := installPass stubs syms acc.2.1 acc.2.2
          (acc.1 ++ p.1, p.2.1, p.2.2)) acc).1 := by
    induction symbolMaps with
    | nil => intro acc h; exact h
    | cons syms rest ih =>
      intro acc h
      simp only [List.foldl_cons]
      apply ih
      intro e he a bs
      rcases List.mem_append.mp he with he1 | he2
      · exact h e he1 a bs
      · have hp : HookOnly (installPass stubs syms acc.2.1 acc.2.2).1 :=
          installPass_hookOnly stubs syms ([], acc.2.1, acc.2.2) (by intro e he; cases he)
        exact hp e he2 a bs
  have h3 : ∀ (stubbedSet : List Nat) (imps : List (String × Nat))
      (acc : List InstallEffect × List Nat),
      HookOnly acc.1 →
      HookOnly ((imps.foldl (fun (acc : List InstallEffect × List Nat) (pr : String × Nat) =>
        if pr.2 = 0 ∨ pr.2 ∈ stubbedSet ∨ pr.2 ∈ acc.2 then acc
        else (acc.1 ++ [InstallEffect.hookAt pr.2], pr.2 :: acc.2)) acc)).1 := by
    intro stubbedSet imps
    induction imps with
    | nil => intro acc h; exact h
    | cons pr rest ih =>
      intro acc h
      simp only [List.foldl_cons]
      apply ih
      split
      · exact h
      · intro e he a bs
        rcases List.mem_append.mp he with he1 | he2
        · exact h e he1 a bs
        · rcases List.mem_singleton.mp he2 with rfl
          intro hcontra
          cases hcontra
  simp only [RegistryInstall]
  split
  · apply h3
    apply h2
    exact h1
  · apply h2
    exact h1

/-! ## Captured keys and the capture hooks (package setters)

Strings read out of guest memory are byte lists.  Go's `isPrintable`
iterates runes; on the byte level its acceptance set is exactly the byte
lists that are non-empty and all in [0x20,0x7E], since any byte ≥ 0x80
decodes to a rune ≥ 0x80 (or the replacement rune) and is rejected.
-/

/-- A captured key record (package setters). -/
structure CapturedKey where
  value : List Nat
  source : String
  address : Nat
  keyType : String
  riskLevel : String
deriving DecidableEq

/-- Package setters isPrintable: non-empty and all bytes in [0x20,0x7E]. -/
def isPrintable (s : List Nat) : Bool :=
  !s.isEmpty && s.all (fun c => 0x20 ≤ c && c ≤ 0x7e)

/-- Modelled from the spec: `isPrintableKey`, called by the driver's
vtable-stub hooks in cmd/galago/main.go, is not defined in any file under
src/.  The spec's capture gate — "only printable-ASCII, non-empty strings
may be captured", value in 0x20..0x7E — is modelled directly. -/
def isPrintableKey (s : List Nat) : Bool :=
  !s.isEmpty && s.all (fun c => 0x20 ≤ c && c ≤ 0x7e)

/-- The printability invariant claim C1 states for a captured key. -/
def PrintableValue (k : CapturedKey) : Prop :=
  0 < k.value.length ∧ ∀ c ∈ k.value, 0x20 ≤ c ∧ c ≤ 0x7e

/-- A passed printability gate yields the claimed invariant. -/
theorem isPrintable_spec (s : List Nat) (h : isPrintable s = true) :
    0 < s.length ∧ ∀ c ∈ s, 0x20 ≤ c ∧ c ≤ 0x7e := by
  simp only [isPrintable, Bool.and_eq_true] at h
  obtain ⟨h1, h2⟩ := h
  constructor
  · cases s with
    | nil => simp at h1
    | cons a l => simp
  · intro c hc
    have := List.all_eq_true.mp h2 c hc
    simp only [Bool.and_eq_true, decide_eq_true_eq] at this
    exact this

/-- Same fact for the spec-modelled driver gate. -/
theorem isPrintableKey_spec (s : List Nat) (h : isPrintableKey s = true) :
    0 < s.length ∧ ∀ c ∈ s, 0x20 ≤ c ∧ c ≤ 0x7e := by
  exact isPrintable_spec s h

/-- The registers and PC a capture hook reads. -/
structure Regs where
  x : Nat → Nat
  pc : Nat

/-- readStdString (package setters): try the libstdc++ heap-pointer
heuristic, then the libc++ SSO short form, then the libc++ long form; all
success paths are gated on printability. -/
def readStdString (m : GMem) (addr : Nat) : Option (List Nat) :=
  if addr = 0 then none
  else
    match memRead m addr 24 with
    | none => none
    | some data =>
      let ptr := leVal8 data 0
      let cow : Option (List Nat) :=
        if 0x90000000 ≤ ptr ∧ ptr < 0xA0000000 then
          match memReadString m ptr 256 with
          | none => none
          | some str => if 0 < str.length ∧ isPrintable str then some str else none
        else none
      match cow with
      | some str => some str
      | none =>
        if data.getD 0 0 % 2 = 0 then
          let len := data.getD 0 0 / 2
          if 0 < len ∧ len ≤ 22 then
            if isPrintable ((data.drop 1).take len) then some ((data.drop 1).take len)
            else none
          else none
        else
          let len := leVal8 data 8
          let dataPtr := leVal8 data 16
          if 0 < len ∧ len ≤ 256 ∧ dataPtr ≠ 0 then
            match memRead m dataPtr len with
            | some strData => if isPrintable strData then some strData else none
            | none => none
          else none

/-- The recurring Go capture-guard shape: a string read whose result is
kept only when non-empty and printable (`if str, ok := read(...); ok &&
len(str) > 0 && isPrintable(str) { key = str }`), with the empty list as
the unassigned value. -/
def guardedStr (o : Option (List Nat)) : List Nat :=
  match o with
  | some str => if 0 < str.length ∧ isPrintable str then str else []
  | none => []

/-- A byte list that is printable whenever it is non-empty. -/
def PrintableIfNe (s : List Nat) : Prop := s ≠ [] → isPrintable s = true

theorem printableIfNe_nil : PrintableIfNe [] := fun h => absurd rfl h

theorem printableIfNe_ite (c : Prop) [Decidable c] {a b : List Nat}
    (ha : PrintableIfNe a) (hb : PrintableIfNe b) :
    PrintableIfNe (if c then a else b) := by
  split
  · exact ha
  · exact hb

theorem guardedStr_printableIfNe (o : Option (List Nat)) :
    PrintableIfNe (guardedStr o) := by
  cases o with
  | none => exact printableIfNe_nil
  | some str =>
    simp only [guardedStr]
    by_cases hc : 0 < str.length ∧ isPrintable str = true
    · rw [if_pos hc]
      exact fun _ => hc.2
    · rw [if_neg hc]
      exact printableIfNe_nil

/-- isLuaSetterSymbol: a Lua-style setter name (not the std::string
overload). -/
def isLuaSetterSymbol (name : String) : Bool :=
  (strContains (strLower name) "setxxteakey" || strContains (strLower name) "setxxtea") &&
  !(strContains name "basic_string")

/-- makeXXTeaKeyHook, std::string stage: for basic_string/jsb_set symbols
X0 points at a std::string. -/
def xxteaKeyStage1 (funcName : String) (r : Regs) (m : GMem) : List Nat :=
  if strContains funcName "basic_string" || strContains funcName "jsb_set" then
    guardedStr (readStdString m (r.x 0))
  else []

/-- makeXXTeaKeyHook, Lua stage: static convention (X0=key, X1=len) when
X1 looks like a length, else member convention (X1=key). -/
def xxteaKeyStage2 (funcName : String) (r : Regs) (m : GMem) : List Nat :=
  if xxteaKeyStage1 funcName r m = [] ∧ isLuaSetterSymbol funcName then
    if r.x 1 < 256 ∧ 0 < r.x 1 then guardedStr (memReadString m (r.x 0) 128)
    else guardedStr (memReadString m (r.x 1) 128)
  else xxteaKeyStage1 funcName r m

/-- One step of the fallback register scan: keep a non-empty printable
string, otherwise continue with the rest of the scan. -/
def scanStep (str? : Option (List Nat)) (alt : List Nat) : List Nat :=
  match str? with
  | some str => if 0 < str.length ∧ isPrintable str then str else alt
  | none => alt

/-- makeXXTeaKeyHook, fallback stage: scan X0, X1, X2 for a pointer to a
printable C string. -/
def keyScanRegs (r : Regs) (m : GMem) : List Nat → List Nat
  | [] => []
  | reg :: rest =>
    if r.x reg = 0 ∨ r.x reg < 0x1000 ∨ 0x7000000000000000 < r.x reg then
      keyScanRegs r m rest
    else scanStep (memReadString m (r.x reg) 256) (keyScanRegs r m rest)

/-- The key value the XXTEA hook settles on (stages in Go order). -/
def xxteaKey (funcName : String) (r : Regs) (m : GMem) : List Nat :=
  if xxteaKeyStage2 funcName r m = [] then keyScanRegs r m [0, 1, 2]
  else xxteaKeyStage2 funcName r m

theorem scanStep_printableIfNe (o : Option (List Nat)) (alt : List Nat)
    (halt : PrintableIfNe alt) : PrintableIfNe (scanStep o alt) := by
  cases o with
  | none => exact halt
  | some str =>
    simp only [scanStep]
    by_cases hc : 0 < str.length ∧ isPrintable str = true
    · rw [if_pos hc]
      exact fun _ => hc.2
    · rw [if_neg hc]
      exact halt

theorem keyScanRegs_printableIfNe (r : Regs) (m : GMem) :
    ∀ regs, PrintableIfNe (keyScanRegs r m regs) := by
  intro regs
  induction regs with
  | nil => exact printableIfNe_nil
  | cons reg rest ih =>
    show PrintableIfNe (if _ then keyScanRegs r m rest
      else scanStep (memReadString m (r.x reg) 256) (keyScanRegs r m rest))
    exact printableIfNe_ite _ ih (scanStep_printableIfNe _ _ ih)

theorem xxteaKeyStage1_printableIfNe (funcName : String) (r : Regs) (m : GMem) :
    PrintableIfNe (xxteaKeyStage1 funcName r m) := by
  unfold xxteaKeyStage1
  exact printableIfNe_ite _ (guardedStr_printableIfNe _) printableIfNe_nil

theorem xxteaKeyStage2_printableIfNe (funcName : String) (r : Regs) (m : GMem) :
    PrintableIfNe (xxteaKeyStage2 funcName r m) := by
  unfold xxteaKeyStage2
  exact printableIfNe_ite _
    (printableIfNe_ite _ (guardedStr_printableIfNe _) (guardedStr_printableIfNe _))
    (xxteaKeyStage1_printableIfNe funcName r m)

theorem xxteaKey_printableIfNe (funcName : String) (r : Regs) (m : GMem) :
    PrintableIfNe (xxteaKey funcName r m) := by
  unfold xxteaKey
  exact printableIfNe_ite _ (keyScanRegs_printableIfNe r m [0, 1, 2])
    (xxteaKeyStage2_printableIfNe funcName r m)

/-- The signature capture of the XXTEA hook: a guarded second capture from
X3/X4 tagged as a low-risk signature. -/
def signatureCapture (funcName : String) (pc : Nat) (o : Option (List Nat)) :
    List CapturedKey :=
  match o with
  | some sign =>
    if 0 < sign.length ∧ isPrintable sign then
      [⟨sign, funcName ++ "[signature]", pc, "signature", "low"⟩]
    else []
  | none => []

/-- The captures makeXXTeaKeyHook appends to the process-wide list, given
the registers and guest memory at entry. -/
def makeXXTeaKeyHookCaptures (funcName : String) (r : Regs) (m : GMem) :
    List CapturedKey :=
  if xxteaKey funcName r m ≠ [] then
    ⟨xxteaKey funcName r m, funcName, r.pc, "xxtea", "critical"⟩ ::
    (if 0x1000 < r.x 3 ∧ 0 < r.x 4 ∧ r.x 4 < 256 then
      signatureCapture funcName r.pc (memReadString m (r.x 3) 128)
    else [])
  else []

/-- One step of the generic key-hook scan over X0, X1, X2. -/
def genericScanStep (str? : Option (List Nat)) (alt : Option (List Nat)) :
    Option (List Nat) :=
  match str? with
  | some key => if 0 < key.length ∧ isPrintable key then some key else alt
  | none => alt

/-- The register scan of makeGenericKeyHook. -/
def genericKeyScan (r : Regs) (m : GMem) : List Nat → Option (List Nat)
  | [] => none
  | reg :: rest =>
    if r.x reg = 0 ∨ 0x7000000000000000 < r.x reg then genericKeyScan r m rest
    else genericScanStep (memReadString m (r.x reg) 256) (genericKeyScan r m rest)

/-- The single capture makeGenericKeyHook performs when its scan hits. -/
def genericCapture (funcName keyType : String) (pc : Nat) (o : Option (List Nat)) :
    List CapturedKey :=
  match o with
  | some key => [⟨key, funcName, pc, keyType, "high"⟩]
  | none => []

/-- The captures makeGenericKeyHook appends. -/
def makeGenericKeyHookCaptures (funcName keyType : String) (r : Regs) (m : GMem) :
    List CapturedKey :=
  genericCapture funcName keyType r.pc (genericKeyScan r m [0, 1, 2])

theorem genericScanStep_some (o alt : Option (List Nat)) (key : List Nat)
    (h : genericScanStep o alt = some key) :
    isPrintable key = true ∨ alt = some key := by
  cases o with
  | none => exact Or.inr h
  | some str =>
    simp only [genericScanStep] at h
    split at h
    · next hc =>
      cases h
      exact Or.inl hc.2
    · exact Or.inr h

theorem genericKeyScan_printable (r : Regs) (m : GMem) :
    ∀ regs key, genericKeyScan r m regs = some key → isPrintable key = true := by
  intro regs
  induction regs with
  | nil => intro key h; cases h
  | cons reg rest ih =>
    intro key h
    rw [genericKeyScan] at h
    split at h
    · exact ih key h
    · rcases genericScanStep_some _ _ _ h with hp | halt
      · exact hp
      · exact ih key halt

/-- The key value makeStdStringSetterHook settles on: X1 as std::string,
else the bounded const-char* fallback at X1. -/
def stdStringSetterKey (r : Regs) (m : GMem) : List Nat :=
  if guardedStr (readStdString m (r.x 1)) = [] then
    if 0x1000 < r.x 1 ∧ r.x 1 < 0x7000000000000000 then
      guardedStr (memReadString m (r.x 1) 128)
    else []
  else guardedStr (readStdString m (r.x 1))

theorem stdStringSetterKey_printableIfNe (r : Regs) (m : GMem) :
    PrintableIfNe (stdStringSetterKey r m) := by
  unfold stdStringSetterKey
  exact printableIfNe_ite _
    (printableIfNe_ite _ (guardedStr_printableIfNe _) printableIfNe_nil)
    (guardedStr_printableIfNe _)

/-- The captures makeStdStringSetterHook appends: the key from X1, and the
signature from X2 when both are non-empty. -/
def makeStdStringSetterHookCaptures (funcName : String) (r : Regs) (m : GMem) :
    List CapturedKey :=
  if stdStringSetterKey r m ≠ [] then
    ⟨stdStringSetterKey r m, funcName, r.pc, "xxtea", "critical"⟩ ::
    (if guardedStr (readStdString m (r.x 2)) ≠ [] then
      [⟨guardedStr (readStdString m (r.x 2)), funcName ++ "[signature]", r.pc,
        "signature", "low"⟩]
    else [])
  else []

/-- CaptureKeyDirect (package setters): classify the key type from the
source string and append a critical-risk capture.  It applies no
printability gate of its own. -/
def CaptureKeyDirect (value : List Nat) (source : String) (address : Nat) :
    CapturedKey :=
  let sourceLower := strLower source
  let keyType :=
    if strContains sourceLower "xxtea" || strContains sourceLower "xtea" then "xxtea"
    else if strContains sourceLower "signature" then "signature"
    else if strContains sourceLower "crypto" || strContains sourceLower "aes" then "crypto"
    else "unknown"
  ⟨value, source, address, keyType, "critical"⟩

/-- A resolved vtable slot (internal/emulator/vtable.go SlotInfo). -/
structure SlotInfo where
  target : Nat
  symName : String
  relocType : Nat
  slotIndex : Int
deriving DecidableEq

/-- Go map read of the driver's setterSlots map. -/
def lookupSlot : List (Nat × SlotInfo) → Nat → Option SlotInfo
  | [], _ => none
  | (k, v) :: rest, i => if k = i then some v else lookupSlot rest i

/-- One capture attempt of the driver's vtable-stub hook: a raw
(pointer,length) read gated by isPrintableKey, then CaptureKeyDirect. -/
def vtableCaptureOne (source : String) (pc : Nat) (o : Option (List Nat)) :
    List CapturedKey :=
  match o with
  | some bytes => if isPrintableKey bytes then [CaptureKeyDirect bytes source pc] else []
  | none => []

/-- The captures the driver's per-slot vtable-stub hook appends
(installVtableStubHooks in cmd/galago/main.go): when the slot index is a
setter slot, the key from (X1,X2) and the signature from (X3,X4). -/
def vtableStubHookCaptures (setterSlots : List (Nat × SlotInfo)) (slotIdx : Nat)
    (r : Regs) (m : GMem) : List CapturedKey :=
  match lookupSlot setterSlots slotIdx with
  | none => []
  | some slot =>
    (if 0 < r.x 2 ∧ r.x 2 < 256 ∧ 0x1000 < r.x 1 then
      vtableCaptureOne ("vtable[" ++ Nat.repr slotIdx ++ "]->" ++ slot.symName) r.pc
        (memRead m (r.x 1) (r.x 2))
    else []) ++
    (if 0 < r.x 4 ∧ r.x 4 < 256 ∧ 0x1000 < r.x 3 then
      vtableCaptureOne
        ("vtable[" ++ Nat.repr slotIdx ++ "]->" ++ slot.symName ++ "[signature]") r.pc
        (memRead m (r.x 3) (r.x 4))
    else [])

theorem signatureCapture_printable (funcName : String) (pc : Nat)
    (o : Option (List Nat)) (k : CapturedKey) (hk : k ∈ signatureCapture funcName pc o) :
    PrintableValue k := by
  cases o with
  | none => cases hk
  | some sign =>
    simp only [signatureCapture] at hk
    split at hk
    · next hc =>
      rcases List.mem_singleton.mp hk with rfl
      exact isPrintable_spec _ hc.2
    · cases hk

theorem vtableCaptureOne_printable (source : String) (pc : Nat)
    (o : Option (List Nat)) (k : CapturedKey) (hk : k ∈ vtableCaptureOne source pc o) :
    PrintableValue k := by
  cases o with
  | none => cases hk
  | some bytes =>
    simp only [vtableCaptureOne] at hk
    split at hk
    · next hc =>
      rcases List.mem_singleton.mp hk with rfl
      exact isPrintableKey_spec _ hc
    · cases hk

/-- Claim C1: every element any of the capture paths appends to the
process-wide captured-keys list — the XXTEA, generic and std::string
setter hooks, and the driver's vtable-stub hooks going through the
exported CaptureKeyDirect — has a non-empty printable-ASCII value. -/
theorem claim_C1 (funcName keyType : String) (setterSlots : List (Nat × SlotInfo))
    (slotIdx : Nat) (r : Regs) (m : GMem) :
    (∀ k ∈ makeXXTeaKeyHookCaptures funcName r m, PrintableValue k) ∧
    (∀ k ∈ makeGenericKeyHookCaptures funcName keyType r m, PrintableValue k) ∧
    (∀ k ∈ makeStdStringSetterHookCaptures funcName r m, PrintableValue k) ∧
    (∀ k ∈ vtableStubHookCaptures setterSlots slotIdx r m, PrintableValue k) := by
  refine ⟨?_, ?_, ?_, ?_⟩
  · intro k hk
    simp only [makeXXTeaKeyHookCaptures] at hk
    by_cases hne : xxteaKey funcName r m = []
    · rw [if_neg (fun hC => hC hne)] at hk
      cases hk
    · rw [if_pos hne] at hk
      rcases List.mem_cons.mp hk with rfl | hk2
      · exact isPrintable_spec _ (xxteaKey_printableIfNe funcName r m hne)
      · by_cases hsig : 0x1000 < r.x 3 ∧ 0 < r.x 4 ∧ r.x 4 < 256
        · rw [if_pos hsig] at hk2
          exact signatureCapture_printable _ _ _ _ hk2
        · rw [if_neg hsig] at hk2
          cases hk2
  · intro k hk
    simp only [makeGenericKeyHookCaptures] at hk
    cases hsc : genericKeyScan r m [0, 1, 2] with
    | none => rw [hsc] at hk; cases hk
    | some key =>
      rw [hsc] at hk
      simp only [genericCapture] at hk
      rcases List.mem_singleton.mp hk with rfl
      exact isPrintable_spec _ (genericKeyScan_printable r m [0, 1, 2] key hsc)
  · intro k hk
    simp only [makeStdStringSetterHookCaptures] at hk
    by_cases hne : stdStringSetterKey r m = []
    · rw [if_neg (fun hC => hC hne)] at hk
      cases hk
    · rw [if_pos hne] at hk
      rcases List.mem_cons.mp hk with rfl | hk2
      · exact isPrintable_spec _ (stdStringSetterKey_printableIfNe r m hne)
      · by_cases hsg : guardedStr (readStdString m (r.x 2)) = []
        · rw [if_neg (fun hC => hC hsg)] at hk2
          cases hk2
        · rw [if_pos hsg] at hk2
          rcases List.mem_singleton.mp hk2 with rfl
          exact isPrintable_spec _ (guardedStr_printableIfNe _ hsg)
  · intro k hk
    simp only [vtableStubHookCaptures] at hk
    cases hsl : lookupSlot setterSlots slotIdx with
    | none => rw [hsl] at hk; cases hk
    | some slot =>
      rw [hsl] at hk
      simp only [] at hk
      rcases List.mem_append.mp hk with hk1 | hk2
      · by_cases hg : 0 < r.x 2 ∧ r.x 2 < 256 ∧ 0x1000 < r.x 1
        · rw [if_pos hg] at hk1
          exact vtableCaptureOne_printable _ _ _ _ hk1
        · rw [if_neg hg] at hk1
          cases hk1
      · by_cases hg : 0 < r.x 4 ∧ r.x 4 < 256 ∧ 0x1000 < r.x 3
        · rw [if_pos hg] at hk2
          exact vtableCaptureOne_printable _ _ _ _ hk2
        · rw [if_neg hg] at hk2
          cases hk2

/-- A concrete guest memory holding the printable C string "AB" at
address 0x2000 inside a mapped 0x200-byte window. -/
def cexMem : GMem := fun a =>
  if 0x2000 ≤ a ∧ a < 0x2200 then
    some (if a = 0x2000 then 0x41 else if a = 0x2001 then 0x42 else 0)
  else none

/-- Concrete registers: X0 points at the string, PC is 0x500. -/
def cexRegs : Regs := ⟨fun n => if n = 0 then 0x2000 else 0, 0x500⟩

/-- Witness for claim C1: the generic AES hook at the concrete state
captures exactly "AB", and the claim instantiates to its printability. -/
theorem claim_C1_witness :
    PrintableValue ⟨[0x41, 0x42], "AES_set_key", 0x500, "aes", "high"⟩ := by
  exact (claim_C1 "AES_set_key" "aes" [] 0 cexRegs cexMem).2.1
    ⟨[0x41, 0x42], "AES_set_key", 0x500, "aes", "high"⟩ (by decide)

/-! ## Emulator state, stub hooks and the driver's hook installation

`Emulator.addrHooks` is a Go map from address to hook function;
`HookAddress` is a plain map assignment, so installing a hook at an
already-hooked address replaces the previous hook.  Hooks are named by
provenance (an inductive tag) and given semantics by `runHook`; the map is
an association list with the most recent assignment first.
-/

/-- The emulator state a stub hook can read and write. -/
structure EmuSt where
  x : Nat → Nat
  pc : Nat
  lr : Nat
  mem : GMem
  heapPtr : Nat
  captured : List CapturedKey

/-- Emulator.SetX as a register-file update (hooks only use indices in
0..30, which the Go bounds check accepts). -/
def setX (f : Nat → Nat) (n v : Nat) : Nat → Nat :=
  fun k => if k = n then v else f k

/-- makeVtableStubHook (constructor-attached): on a stack-directed X8,
allocate a 24+16 byte COW _Rep, write header {len=0, cap=15, refcount=0},
NUL data, store the data pointer through *X8 and return X0 = X8; otherwise
X0 = mock_object.  `none` models a Malloc panic. -/
def makeVtableStubHook (s : EmuSt) : Option (EmuSt × Bool) :=
  if StackBase ≤ s.x 8 ∧ s.x 8 < StackBase + StackSize then
    match Malloc s.heapPtr 40 with
    | none => none
    | some (repPtr, hp) =>
      if repPtr = 0 then
        some ({ s with x := setX s.x 0 mockObj, heapPtr := hp }, false)
      else
        some ({ s with
          x := setX s.x 0 (s.x 8),
          mem := memWrite (memWrite (memWrite s.mem
              repPtr (le64Bytes 0 ++ le64Bytes 15 ++ List.replicate 8 0))
            ((repPtr + 24) % U64) (List.replicate 16 0))
            (s.x 8) (le64Bytes ((repPtr + 24) % U64)),
          heapPtr := hp }, false)
  else some ({ s with x := setX s.x 0 mockObj }, false)

/-- makeVtableStubHook with the allocation-failure fallback branch
removed; used to state that the fallback is unreachable. -/
def makeVtableStubHookNoFallback (s : EmuSt) : Option (EmuSt × Bool) :=
  if StackBase ≤ s.x 8 ∧ s.x 8 < StackBase + StackSize then
    match Malloc s.heapPtr 40 with
    | none => none
    | some (repPtr, hp) =>
      some ({ s with
        x := setX s.x 0 (s.x 8),
        mem := memWrite (memWrite (memWrite s.mem
            repPtr (le64Bytes 0 ++ le64Bytes 15 ++ List.replicate 8 0))
          ((repPtr + 24) % U64) (List.replicate 16 0))
          (s.x 8) (le64Bytes ((repPtr + 24) % U64)),
        heapPtr := hp }, false)
  else some ({ s with x := setX s.x 0 mockObj }, false)

/-- makeCallbackStubHook (constructor-attached): same contract with X0 = 0
in the non-stack and failure cases. -/
def makeCallbackStubHook (s : EmuSt) : Option (EmuSt × Bool) :=
  if StackBase ≤ s.x 8 ∧ s.x 8 < StackBase + StackSize then
    match Malloc s.heapPtr 40 with
    | none => none
    | some (repPtr, hp) =>
      if repPtr = 0 then
        some ({ s with x := setX s.x 0 0, heapPtr := hp }, false)
      else
        some ({ s with
          x := setX s.x 0 (s.x 8),
          mem := memWrite (memWrite (memWrite s.mem
              repPtr (le64Bytes 0 ++ le64Bytes 15 ++ List.replicate 8 0))
            ((repPtr + 24) % U64) (List.replicate 16 0))
            (s.x 8) (le64Bytes ((repPtr + 24) % U64)),
          heapPtr := hp }, false)
  else some ({ s with x := setX s.x 0 0 }, false)

/-- makeCallbackStubHook without the allocation-failure fallback. -/
def makeCallbackStubHookNoFallback (s : EmuSt) : Option (EmuSt × Bool) :=
  if StackBase ≤ s.x 8 ∧ s.x 8 < StackBase + StackSize then
    match Malloc s.heapPtr 40 with
    | none => none
    | some (repPtr, hp) =>
      some ({ s with
        x := setX s.x 0 (s.x 8),
        mem := memWrite (memWrite (memWrite s.mem
            repPtr (le64Bytes 0 ++ le64Bytes 15 ++ List.replicate 8 0))
          ((repPtr + 24) % U64) (List.replicate 16 0))
          (s.x 8) (le64Bytes ((repPtr + 24) % U64)),
        heapPtr := hp }, false)
  else some ({ s with x := setX s.x 0 0 }, false)

/-- Address hooks by provenance. -/
inductive HookTag
  | ctorVtableStub
  | ctorCallbackStub
  | mockObj2Call
  | driverVtableStub (slotIdx : Nat)
deriving DecidableEq

/-- Emulator.HookAddress: a map assignment, recorded most recent first. -/
def hookInsert (hs : List (Nat × HookTag)) (a : Nat) (t : HookTag) :
    List (Nat × HookTag) := (a, t) :: hs

/-- The map lookup the per-instruction dispatcher performs: the most
recent assignment to the address wins. -/
def lookupHook : List (Nat × HookTag) → Nat → Option HookTag
  | [], _ => none
  | (a, t) :: rest, addr => if a = addr then some t else lookupHook rest addr

/-- The address-hook map after Emulator.mapMemory: hooks at the 256 vtable
stubs, the 256 callback stubs and the 256 mock_obj2 call stubs. -/
def ctorAddrHooks : List (Nat × HookTag) :=
  let h1 := (List.range 256).foldl
    (fun hs i => hookInsert hs (vtableStubs + i * 4) HookTag.ctorVtableStub) []
  let h2 := (List.range 256).foldl
    (fun hs i => hookInsert hs (callbackStubs + i * 4) HookTag.ctorCallbackStub) h1
  (List.range 256).foldl
    (fun hs i => hookInsert hs (mockObj2 + i * 4) HookTag.mockObj2Call) h2

/-- installVtableStubHooks (cmd/galago/main.go): a HookAddress call at
each of the 256 vtable-stub addresses, installing the driver's per-slot
hook. -/
def installVtableStubHooks (hs : List (Nat × HookTag)) : List (Nat × HookTag) :=
  (List.range 256).foldl
    (fun hs i => hookInsert hs (vtableStubs + i * 4) (HookTag.driverVtableStub i)) hs

/-- The semantics of each hook on the emulator state.  The driver's
per-slot hook captures (when the slot is a setter slot), sets
X0 = mock_object and falls through; it never touches guest memory or the
bump pointer. -/
def runHook (t : HookTag) (setterSlots : List (Nat × SlotInfo)) (s : EmuSt) :
    Option (EmuSt × Bool) :=
  match t with
  | .ctorVtableStub => makeVtableStubHook s
  | .ctorCallbackStub => makeCallbackStubHook s
  | .mockObj2Call => some ({ s with x := setX s.x 0 mockObj }, false)
  | .driverVtableStub slotIdx =>
    some ({ s with
      captured := s.captured ++ vtableStubHookCaptures setterSlots slotIdx ⟨s.x, s.pc⟩ s.mem,
      x := setX s.x 0 mockObj }, false)

/-- A concrete emulator state with X8 pointing into the stack region, a
fresh bump pointer and fully mapped zero guest memory. -/
def cexSt : EmuSt :=
  ⟨fun n => if n = 8 then StackBase + 0x100 else 0, 0, 0, fun _ => some 0, HeapBase, []⟩

/-- The state the driver's slot-0 hook produces from cexSt. -/
def cexSt' : EmuSt :=
  { cexSt with
    captured := cexSt.captured ++ vtableStubHookCaptures [] 0 ⟨cexSt.x, cexSt.pc⟩ cexSt.mem,
    x := setX cexSt.x 0 mockObj }

/-- Counterexample to claim C2 as stated: after the driver's step 5, the
hook registered at vtable-stub address 0 is the driver hook (HookAddress
replaced the constructor hook), and running it on a state whose X8 points
into the stack sets X0 = mock_object — not X0 = X8 — and performs no
memory write at *X8 (the byte there still reads 0): the section-4.2
contract is not performed. -/
theorem claim_C2_counterexample :
    lookupHook (installVtableStubHooks ctorAddrHooks) (vtableStubs + 0 * 4)
      = some (HookTag.driverVtableStub 0) ∧
    (runHook (HookTag.driverVtableStub 0) [] cexSt).map
        (fun p => (p.1.x 0, p.1.mem (cexSt.x 8), p.2))
      = some (mockObj, some 0, false) ∧
    mockObj ≠ cexSt.x 8 := by
  refine ⟨by decide, by decide, by decide⟩

/-- After driver installation, the hook at every vtable-stub address is
the driver's per-slot hook. -/
theorem installVtableStubHooks_lookup :
    ∀ i : Fin 256,
      lookupHook (installVtableStubHooks ctorAddrHooks) (vtableStubs + i.val * 4)
        = some (HookTag.driverVtableStub i.val) := by
  decide

/-- Claim C2, amended: the driver's step-5 HookAddress calls replace the
constructor-attached hooks at the 256 vtable-stub addresses rather than
layering on top of them; afterwards, executing any vtable-stub address
runs only the driver hook, which (after the optional setter capture) sets
X0 = mock_object and falls through — even when X8 points inside the stack
region no COW _Rep is allocated, guest memory and the bump pointer are
untouched, and X0 is not set to X8. -/
theorem claim_C2 (i : Fin 256) (setterSlots : List (Nat × SlotInfo)) (s : EmuSt) :
    lookupHook (installVtableStubHooks ctorAddrHooks) (vtableStubs + i.val * 4)
      = some (HookTag.driverVtableStub i.val) ∧
    ∀ s' stop, runHook (HookTag.driverVtableStub i.val) setterSlots s = some (s', stop) →
      s'.x 0 = mockObj ∧ s'.mem = s.mem ∧ s'.heapPtr = s.heapPtr ∧ stop = false := by
  refine ⟨installVtableStubHooks_lookup i, ?_⟩
  intro s' stop h
  simp only [runHook, Option.some.injEq, Prod.mk.injEq] at h
  obtain ⟨hs, hstop⟩ := h
  subst hs
  subst hstop
  refine ⟨?_, rfl, rfl, rfl⟩
  simp [setX]

/-- Witness for claim C2 at the concrete state cexSt with slot 0 and no
setter slots. -/
theorem claim_C2_witness :
    lookupHook (installVtableStubHooks ctorAddrHooks) (vtableStubs + 0 * 4)
      = some (HookTag.driverVtableStub 0) ∧
    (cexSt'.x 0 = mockObj ∧ cexSt'.mem = cexSt.mem ∧ cexSt'.heapPtr = cexSt.heapPtr
      ∧ false = false) := by
  have h := claim_C2 ⟨0, by decide⟩ [] cexSt
  exact ⟨h.1, h.2 cexSt' false rfl⟩

/-! ## Malloc safety along non-overflowing allocation sequences -/

/-- Blocks returned along a panic-free run of the bump allocator from a
well-formed pointer, with sizes that cannot overflow the pointer, are
nonzero, aligned, in range and monotonically laid out. -/
theorem mallocRun_spec (sizes : List Nat) :
    ∀ (hp : Nat) (blocks : List (Nat × Nat)) (hpEnd : Nat),
      HeapWF hp → (∀ s ∈ sizes, NoWrap s) →
      mallocRun hp sizes = some (blocks, hpEnd) →
      HeapWF hpEnd ∧ hp ≤ hpEnd ∧
      (∀ b ∈ blocks, hp ≤ b.1 ∧ b.1 ≠ 0 ∧ b.1 % 16 = 0 ∧ HeapBase ≤ b.1 ∧
        b.1 + b.2 ≤ hpEnd ∧ b.1 + b.2 ≤ HeapBase + HeapSize) ∧
      blocks.Pairwise (fun a b => a.1 + a.2 ≤ b.1) := by
  induction sizes with
  | nil =>
    intro hp blocks hpEnd hwf _ hrun
    simp only [mallocRun, Option.some.injEq, Prod.mk.injEq] at hrun
    obtain ⟨hb, he⟩ := hrun
    subst hb
    subst he
    refine ⟨hwf, le_rfl, ?_, List.Pairwise.nil⟩
    intro b hb
    cases hb
  | cons size rest ih =>
    intro hp blocks hpEnd hwf hnw hrun
    obtain ⟨hw1, hw2, hw3⟩ := hwf
    have hnw0 : NoWrap size := hnw size (List.mem_cons_self _ _)
    have hsum : hp + align16 size < U64 := by
      simp only [NoWrap, HeapBase, HeapSize, U64] at hnw0 hw3 ⊢
      omega
    simp only [mallocRun, Malloc, Nat.mod_eq_of_lt hsum] at hrun
    by_cases hlim : HeapBase + HeapSize ≤ hp + align16 size
    · simp only [if_pos hlim] at hrun
      exact Option.noConfusion hrun
    · simp only [if_neg hlim] at hrun
      cases hr2 : mallocRun (hp + align16 size) rest with
      | none =>
        simp only [hr2] at hrun
        exact Option.noConfusion hrun
      | some pr =>
        obtain ⟨blocks', hpEnd'⟩ := pr
        simp only [hr2, Option.some.injEq, Prod.mk.injEq] at hrun
        obtain ⟨hb, he⟩ := hrun
        subst hb
        subst he
        have hmod := align16_mod16 size
        have hwf' : HeapWF (hp + align16 size) :=
          ⟨by omega, by omega, by omega⟩
        obtain ⟨ihwf, ihle, ihblocks, ihpw⟩ :=
          ih (hp + align16 size) blocks' hpEnd' hwf'
            (fun s hs => hnw s (List.mem_cons_of_mem _ hs)) hr2
        refine ⟨ihwf, by omega, ?_, ?_⟩
        · intro b hb
          rcases List.mem_cons.mp hb with rfl | hb'
          · refine ⟨le_rfl, ?_, hw2, hw1, ?_, ?_⟩
            · simp only [HeapBase] at hw1
              omega
            · simpa using ihle
            · omega
          · obtain ⟨hble, hrest⟩ := ihblocks b hb'
            exact ⟨by omega, hrest⟩
        · refine List.Pairwise.cons ?_ ihpw
          intro b hb'
          have := (ihblocks b hb').1
          simpa using this

/-- Both constructor stub hooks never take the repPtr = 0 fallback from a
well-formed heap state: they coincide with their fallback-free variants. -/
theorem stubHook_noFallback (s : EmuSt) (hswf : HeapWF s.heapPtr) :
    makeVtableStubHook s = makeVtableStubHookNoFallback s ∧
    makeCallbackStubHook s = makeCallbackStubHookNoFallback s := by
  obtain ⟨h1, _, h3⟩ := hswf
  have hsum : s.heapPtr + align16 40 < U64 := by
    simp only [align16, HeapBase, HeapSize, U64] at h3 ⊢
    omega
  have hne : ¬(s.heapPtr = 0) := by
    simp only [HeapBase] at h1
    omega
  by_cases hlim : HeapBase + HeapSize ≤ s.heapPtr + align16 40
  · have hm : Malloc s.heapPtr 40 = none := by
      simp only [Malloc, Nat.mod_eq_of_lt hsum, if_pos hlim]
    constructor <;>
      simp only [makeVtableStubHook, makeVtableStubHookNoFallback,
        makeCallbackStubHook, makeCallbackStubHookNoFallback, hm]
  · have hm : Malloc s.heapPtr 40 = some (s.heapPtr, s.heapPtr + align16 40) := by
      simp only [Malloc, Nat.mod_eq_of_lt hsum, if_neg hlim]
    constructor <;>
      simp only [makeVtableStubHook, makeVtableStubHookNoFallback,
        makeCallbackStubHook, makeCallbackStubHookNoFallback, hm, if_neg hne]

/-- Claim C10, amended: along any allocation sequence from a well-formed
bump pointer whose rounded sizes cannot wrap the 64-bit pointer (true in
particular of the hooks' fixed 40-byte _Rep allocations), every Malloc
either panics or returns a nonzero 16-byte-aligned address, the returned
blocks lie inside [HeapBase, HeapBase+HeapSize) and are pairwise disjoint,
and consequently the repPtr = 0 fallback branches of the vtable-stub and
callback-stub hooks are unreachable: from any well-formed heap state the
hooks behave exactly like their fallback-free variants. -/
theorem claim_C10 (hp : Nat) (sizes : List Nat) (blocks : List (Nat × Nat)) (hpEnd : Nat)
    (hwf : HeapWF hp) (hnw : ∀ s ∈ sizes, NoWrap s)
    (hrun : mallocRun hp sizes = some (blocks, hpEnd)) :
    (∀ b ∈ blocks, b.1 ≠ 0 ∧ b.1 % 16 = 0 ∧ HeapBase ≤ b.1 ∧
      b.1 + b.2 ≤ HeapBase + HeapSize) ∧
    blocks.Pairwise (fun a b => a.1 + a.2 ≤ b.1) ∧
    HeapWF hpEnd ∧
    (∀ s : EmuSt, HeapWF s.heapPtr →
      makeVtableStubHook s = makeVtableStubHookNoFallback s ∧
      makeCallbackStubHook s = makeCallbackStubHookNoFallback s) := by
  obtain ⟨hend, _, hblocks, hpw⟩ := mallocRun_spec sizes hp blocks hpEnd hwf hnw hrun
  refine ⟨?_, hpw, hend, fun s hs => stubHook_noFallback s hs⟩
  intro b hb
  obtain ⟨_, hb2, hb3, hb4, _, hb6⟩ := hblocks b hb
  exact ⟨hb2, hb3, hb4, hb6⟩

/-- Witness for claim C10: one 40-byte allocation from the fresh heap. -/
theorem claim_C10_witness :
    ((HeapBase, 48) : Nat × Nat).1 ≠ 0 ∧ (HeapBase, 48).1 % 16 = 0 ∧
    HeapBase ≤ ((HeapBase, 48) : Nat × Nat).1 ∧
    ((HeapBase, 48) : Nat × Nat).1 + (HeapBase, 48).2 ≤ HeapBase + HeapSize ∧
    HeapWF (HeapBase + 48) ∧
    makeVtableStubHook cexSt = makeVtableStubHookNoFallback cexSt := by
  have h := claim_C10 HeapBase [40] [(HeapBase, 48)] (HeapBase + 48)
    (by decide) (by decide) (by decide)
  obtain ⟨hb1, hb2, hb3, hb4⟩ := h.1 (HeapBase, 48) (by decide)
  exact ⟨hb1, hb2, hb3, hb4, h.2.2.1, (h.2.2.2 cexSt (by decide)).1⟩

end Galago
